import Mathlib

/-!
# NVLicenseMonitor

A shallow embedding of `internal/nvLicMon/nvLicMon.go` and of the service loop of
`internal/winService/winService.go`, with the properties of the licence check and
of the token download proved about it.
-/

namespace NVLicenseMonitor

/-! ## The regular expression of `IsLicensed` -/

namespace regexp

/-- One item of a compiled pattern: a literal character, or a character class
under `+` (one or more characters of the class). -/
inductive Item where
  | lit (c : Char)
  | plusClass (cls : Char → Bool)

/-- The items of a literal piece of a pattern. -/
def lits (s : String) : List Item :=
  s.data.map Item.lit

/-- Whether the pattern matches a prefix of the input. -/
def matchAt : List Char → List Item → Bool
  | _, [] => true
  | [], _ :: _ => false
  | c :: cs, Item.lit a :: r => (c == a) && matchAt cs r
  | c :: cs, Item.plusClass p :: r =>
      p c && (matchAt cs (Item.plusClass p :: r) || matchAt cs r)

/-- Whether the pattern matches at some position of the input. -/
def matchAnywhere (re : List Item) : List Char → Bool
  | [] => matchAt [] re
  | c :: cs => matchAt (c :: cs) re || matchAnywhere re cs

/-- The method `MatchString`: the pattern is not anchored, a match anywhere in
the string counts. -/
def MatchString (re : List Item) (s : String) : Bool :=
  matchAnywhere re s.data

end regexp

/-- The class `[\d-: ]` of the pattern: an ASCII digit, a hyphen, a colon or a
space. -/
def expiryClass (c : Char) : Bool :=
  c.isDigit || c == '-' || c == ':' || c == ' '

/-- The pattern `Licensed \(Expiry: [\d-: ]+ GMT\)` compiled in `IsLicensed`. -/
def licenseRegex : List regexp.Item :=
  regexp.lits "Licensed (Expiry: " ++ [regexp.Item.plusClass expiryClass] ++ regexp.lits " GMT)"

/-- The match that `IsLicensed` performs on the licence status text. -/
def matchStatus (licenseStatus : String) : Bool :=
  regexp.MatchString licenseRegex licenseStatus

/-- The shape `YYYY-MM-DD HH:MM:SS`: `none` stands for a digit, `some c` for
the character `c`. -/
def timestampShape : List (Option Char) :=
  [none, none, none, none, some '-', none, none, some '-', none, none, some ' ',
   none, none, some ':', none, none, some ':', none, none]

/-- Whether a character list has a given shape. -/
def fitsShape : List Char → List (Option Char) → Bool
  | [], [] => true
  | c :: cs, none :: sh => c.isDigit && fitsShape cs sh
  | c :: cs, some a :: sh => (c == a) && fitsShape cs sh
  | _, _ => false

/-- A timestamp of the shape `YYYY-MM-DD HH:MM:SS`, whatever its digits. -/
def isTimestamp (t : String) : Bool :=
  fitsShape t.data timestampShape

/-! ## XML decoding of the nvidia-smi report

`IsLicensed` hands the report to `xml.Unmarshal` and drops the error it returns.
The decoder is modelled in two layers, after `encoding/xml` of Go 1.20: the tokens
that `Decoder.Token` delivers until its first error or the end of the input
(`rawToken`, `text`, `name`, `nsname`, `procInst` and the element stack of the
strict decoder), and the walk of `Decoder.unmarshal` over these tokens for the
type `nvidiaSmiLog`. -/

namespace xml

/-- A token of the decoder; an element name is its local part. -/
inductive Token where
  | StartElement (name : String)
  | EndElement (name : String)
  | CharData (data : String)
  | Comment
  | ProcInst
  | Directive
  deriving DecidableEq, Repr

/-- Where a run of text stands: character data, a CDATA section, or the quoted
value of an attribute of the start tag `tag`. -/
inductive TextCtx where
  | chardata
  | cdata
  | attr (tag : List Char) (quote : Char)

/-- The position of the tokenizer inside the markup. Names and buffers are kept
in reverse. -/
inductive Mode where
  | text (ctx : TextCtx) (buf : List Char) (b0 b1 : Char)
  | entStart (ctx : TextCtx) (buf : List Char)
  | entName (ctx : TextCtx) (buf : List Char) (name : List Char)
  | entHash (ctx : TextCtx) (buf : List Char)
  | entNum (ctx : TextCtx) (buf : List Char) (base : Nat) (digits : List Nat)
  | tagOpen
  | startName (n : List Char)
  | inTag (n : List Char)
  | attrName (n : List Char) (a : List Char)
  | attrEq (n : List Char)
  | attrQuote (n : List Char)
  | emptyTag (n : List Char)
  | endName (n : List Char)
  | endSpace (n : List Char)
  | piTarget (n : List Char)
  | piBody (isXml : Bool) (buf : List Char) (b0 : Char)
  | bang
  | commentStart
  | comment (b0 b1 : Char)
  | cdataStart (expect : List Char)
  | directive (depth : Nat) (quote : Char)
  | directiveLt (depth : Nat) (expect : List Char)
  | directiveComment (depth : Nat) (b0 b1 : Char)
  | stopped

/-- The tokenizer: its position, the stack of open elements (prefix and local
name) and the tokens delivered so far, latest first. -/
structure Lexer where
  mode : Mode
  stk : List (List Char × List Char)
  out : List Token

/-- White space skipped by `Decoder.space`. -/
def isSpace (c : Char) : Bool :=
  c == ' ' || c == '\r' || c == '\n' || c == '\t'

/-- The bytes that `readName` takes into a name: the ASCII name bytes of
`isNameByte` and every byte of a character outside ASCII. -/
def isNameByte (c : Char) : Bool :=
  c.isAlphanum || c == '_' || c == ':' || c == '.' || c == '-' || 128 ≤ c.toNat

/-- The table `first` of `encoding/xml`, as code point ranges: the letters of
Appendix B of XML 1.0 (`BaseChar` and `Ideographic`), the underscore and the
colon. -/
def first : List (Nat × Nat) :=
  [(58, 58), (65, 90), (95, 95), (97, 122), (192, 214), (216, 246), (248, 305), (308, 318),
   (321, 328), (330, 382), (384, 451), (461, 496), (500, 501), (506, 535), (592, 680),
   (699, 705), (902, 902), (904, 906), (908, 908), (910, 929), (931, 974), (976, 982),
   (986, 986), (988, 988), (990, 990), (992, 992), (994, 1011), (1025, 1036), (1038, 1103),
   (1105, 1116), (1118, 1153), (1168, 1220), (1223, 1224), (1227, 1228), (1232, 1259),
   (1262, 1269), (1272, 1273), (1329, 1366), (1369, 1369), (1377, 1414), (1488, 1514),
   (1520, 1522), (1569, 1594), (1601, 1610), (1649, 1719), (1722, 1726), (1728, 1742),
   (1744, 1747), (1749, 1749), (1765, 1766), (2309, 2361), (2365, 2365), (2392, 2401),
   (2437, 2444), (2447, 2448), (2451, 2472), (2474, 2480), (2482, 2482), (2486, 2489),
   (2524, 2525), (2527, 2529), (2544, 2545), (2565, 2570), (2575, 2576), (2579, 2600),
   (2602, 2608), (2610, 2611), (2613, 2614), (2616, 2617), (2649, 2652), (2654, 2654),
   (2674, 2676), (2693, 2699), (2701, 2701), (2703, 2705), (2707, 2728), (2730, 2736),
   (2738, 2739), (2741, 2745), (2749, 2749), (2784, 2784), (2821, 2828), (2831, 2832),
   (2835, 2856), (2858, 2864), (2866, 2867), (2870, 2873), (2877, 2877), (2908, 2909),
   (2911, 2913), (2949, 2954), (2958, 2960), (2962, 2965), (2969, 2970), (2972, 2972),
   (2974, 2975), (2979, 2980), (2984, 2986), (2990, 2997), (2999, 3001), (3077, 3084),
   (3086, 3088), (3090, 3112), (3114, 3123), (3125, 3129), (3168, 3169), (3205, 3212),
   (3214, 3216), (3218, 3240), (3242, 3251), (3253, 3257), (3294, 3294), (3296, 3297),
   (3333, 3340), (3342, 3344), (3346, 3368), (3370, 3385), (3424, 3425), (3585, 3630),
   (3632, 3632), (3634, 3635), (3648, 3653), (3713, 3714), (3716, 3716), (3719, 3720),
   (3722, 3722), (3725, 3725), (3732, 3735), (3737, 3743), (3745, 3747), (3749, 3749),
   (3751, 3751), (3754, 3755), (3757, 3758), (3760, 3760), (3762, 3763), (3773, 3773),
   (3776, 3780), (3904, 3911), (3913, 3945), (4256, 4293), (4304, 4342), (4352, 4352),
   (4354, 4355), (4357, 4359), (4361, 4361), (4363, 4364), (4366, 4370), (4412, 4412),
   (4414, 4414), (4416, 4416), (4428, 4428), (4430, 4430), (4432, 4432), (4436, 4437),
   (4441, 4441), (4447, 4449), (4451, 4451), (4453, 4453), (4455, 4455), (4457, 4457),
   (4461, 4462), (4466, 4467), (4469, 4469), (4510, 4510), (4520, 4520), (4523, 4523),
   (4526, 4527), (4535, 4536), (4538, 4538), (4540, 4546), (4587, 4587), (4592, 4592),
   (4601, 4601), (7680, 7835), (7840, 7929), (7936, 7957), (7960, 7965), (7968, 8005),
   (8008, 8013), (8016, 8023), (8025, 8025), (8027, 8027), (8029, 8029), (8031, 8061),
   (8064, 8116), (8118, 8124), (8126, 8126), (8130, 8132), (8134, 8140), (8144, 8147),
   (8150, 8155), (8160, 8172), (8178, 8180), (8182, 8188), (8486, 8486), (8490, 8491),
   (8494, 8494), (8576, 8578), (12295, 12295), (12321, 12329), (12353, 12436), (12449, 12538),
   (12549, 12588), (19968, 40869), (44032, 55203)]

/-- The table `second` of `encoding/xml`, as code point ranges: the digits,
combining characters and extenders of Appendix B of XML 1.0, the hyphen and the
full stop. -/
def second : List (Nat × Nat) :=
  [(45, 46), (48, 57), (183, 183), (720, 721), (768, 837), (864, 865), (903, 903), (1155, 1158),
   (1425, 1441), (1443, 1465), (1467, 1469), (1471, 1471), (1473, 1474), (1476, 1476),
   (1600, 1600), (1611, 1618), (1632, 1641), (1648, 1648), (1750, 1764), (1767, 1768),
   (1770, 1773), (1776, 1785), (2305, 2307), (2364, 2364), (2366, 2381), (2385, 2388),
   (2402, 2403), (2406, 2415), (2433, 2435), (2492, 2492), (2494, 2500), (2503, 2504),
   (2507, 2509), (2519, 2519), (2530, 2531), (2534, 2543), (2562, 2562), (2620, 2620),
   (2622, 2626), (2631, 2632), (2635, 2637), (2662, 2673), (2689, 2691), (2748, 2748),
   (2750, 2757), (2759, 2761), (2763, 2765), (2790, 2799), (2817, 2819), (2876, 2876),
   (2878, 2883), (2887, 2888), (2891, 2893), (2902, 2903), (2918, 2927), (2946, 2947),
   (3006, 3010), (3014, 3016), (3018, 3021), (3031, 3031), (3047, 3055), (3073, 3075),
   (3134, 3140), (3142, 3144), (3146, 3149), (3157, 3158), (3174, 3183), (3202, 3203),
   (3262, 3268), (3270, 3272), (3274, 3277), (3285, 3286), (3302, 3311), (3330, 3331),
   (3390, 3395), (3398, 3400), (3402, 3405), (3415, 3415), (3430, 3439), (3633, 3633),
   (3636, 3642), (3654, 3662), (3664, 3673), (3761, 3761), (3764, 3769), (3771, 3772),
   (3782, 3782), (3784, 3789), (3792, 3801), (3864, 3865), (3872, 3881), (3893, 3893),
   (3895, 3895), (3897, 3897), (3902, 3903), (3953, 3972), (3974, 3979), (3984, 3989),
   (3991, 3991), (3993, 4013), (4017, 4023), (4025, 4025), (8400, 8412), (8417, 8417),
   (12293, 12293), (12330, 12335), (12337, 12341), (12441, 12442), (12445, 12446),
   (12540, 12542)]

/-- Membership in a table of code point ranges (`unicode.Is`). -/
def inTable (table : List (Nat × Nat)) (c : Char) : Bool :=
  table.any (fun r => r.1 ≤ c.toNat && c.toNat ≤ r.2)

/-- The test of `isName` on the first character of a name. -/
def isNameStart (c : Char) : Bool :=
  inTable first c

/-- The test of `isName` on a later character of a name. -/
def isNameChar (c : Char) : Bool :=
  inTable first c || inTable second c

/-- The test `isInCharacterRange`. -/
def isInCharacterRange (c : Char) : Bool :=
  let n := c.toNat
  n == 9 || n == 10 || n == 13 || (32 ≤ n && n ≤ 55295) || (57344 ≤ n && n ≤ 65533) ||
    (65536 ≤ n && n ≤ 1114111)

/-- The split of `nsname`: a prefix and a local name, for a name given in
reverse. More than one colon is an error; with an empty prefix or an empty
local part the whole name is the local name. -/
def nsname (rev : List Char) : Option (List Char × List Char) :=
  let n := rev.reverse
  if 1 < n.count ':' then none
  else
    let pre := n.takeWhile (fun c => c != ':')
    let loc := (n.dropWhile (fun c => c != ':')).drop 1
    if pre.length == n.length || pre.isEmpty || loc.isEmpty then some ([], n)
    else some (pre, loc)

/-- The predefined entities. -/
def entity (name : List Char) : Option Char :=
  if name == "lt".data then some '<'
  else if name == "gt".data then some '>'
  else if name == "amp".data then some '&'
  else if name == "apos".data then some '\''
  else if name == "quot".data then some '"'
  else none

/-- The value of a digit of a numeric character reference. -/
def digitValue (base : Nat) (c : Char) : Option Nat :=
  if c.isDigit then some (c.toNat - 48)
  else if base == 16 && 'a'.toNat ≤ c.toNat && c.toNat ≤ 'f'.toNat then some (c.toNat - 87)
  else if base == 16 && 'A'.toNat ≤ c.toNat && c.toNat ≤ 'F'.toNat then some (c.toNat - 55)
  else none

/-- The character of a numeric reference: a surrogate code point becomes
U+FFFD, as `string(rune(n))` does. -/
def runeOf (n : Nat) : Char :=
  if 55296 ≤ n && n ≤ 57343 then Char.ofNat 65533 else Char.ofNat n

/-- The scan of `procInst` for `param` (the name with its `=`): at the first
occurrence that is followed by a quote, the text up to the next such quote, or
nothing when that quote is missing; an occurrence followed by another character
is passed over together with that character (`skip` counts what is passed
over); nothing when `param` does not occur or ends the string. -/
def procInstScan (param : List Char) : Nat → List Char → List Char
  | _, [] => []
  | k + 1, _ :: cs => procInstScan param k cs
  | 0, c :: cs =>
    if param.isPrefixOf (c :: cs) then
      match (c :: cs).drop param.length with
      | [] => []
      | q :: rest =>
        if q == '\'' || q == '"' then
          if rest.contains q then rest.takeWhile (fun x => x != q) else []
        else procInstScan param param.length cs
    else procInstScan param 0 cs

/-- The function `procInst`: the value of `param="..."` or `param='...'` in the
content of a processing instruction, empty when it is not found. -/
def procInst (param : String) (s : List Char) : List Char :=
  procInstScan (param.data ++ ['=']) 0 s

/-- The test `strings.EqualFold(enc, "utf-8")`. -/
def isUtf8 (enc : List Char) : Bool :=
  match enc with
  | [u, t, f, h, e] =>
    (u == 'u' || u == 'U') && (t == 't' || t == 'T') && (f == 'f' || f == 'F') && h == '-' &&
      e == '8'
  | _ => false

/-- The check of an XML declaration: a version, if given, must be `1.0`, and an
encoding, if given, must be UTF-8, since `xml.Unmarshal` sets no
`CharsetReader`. -/
def xmlDeclOk (content : List Char) : Bool :=
  let ver := procInst "version" content
  let enc := procInst "encoding" content
  (ver.isEmpty || ver == "1.0".data) && (enc.isEmpty || isUtf8 enc)

/-- A syntax error: the decoder delivers no further token. -/
def Lexer.fail (l : Lexer) : Lexer :=
  { l with mode := Mode.stopped }

/-- Back to character data after a token. -/
def Lexer.emit (l : Lexer) (t : Token) : Lexer :=
  { l with mode := Mode.text TextCtx.chardata [] '\x00' '\x00', out := t :: l.out }

/-- A start tag is complete: the element is pushed and its token delivered; a
tag closed by `/>` delivers the end token as well. -/
def Lexer.startTag (l : Lexer) (n : List Char) (empty : Bool) : Lexer :=
  match nsname n with
  | none => l.fail
  | some (pre, loc) =>
    if empty then
      { l with mode := Mode.text TextCtx.chardata [] '\x00' '\x00',
               out := Token.EndElement (String.mk loc) :: Token.StartElement (String.mk loc) :: l.out }
    else
      { mode := Mode.text TextCtx.chardata [] '\x00' '\x00',
        stk := (pre, loc) :: l.stk,
        out := Token.StartElement (String.mk loc) :: l.out }

/-- An end tag is complete: `popElement` checks it against the open element. -/
def Lexer.endTag (l : Lexer) (n : List Char) : Lexer :=
  match nsname n, l.stk with
  | some (pre, loc), (pre0, loc0) :: stk =>
    if loc0 == loc && pre0 == pre then
      { mode := Mode.text TextCtx.chardata [] '\x00' '\x00', stk := stk,
        out := Token.EndElement (String.mk loc) :: l.out }
    else l.fail
  | _, _ => l.fail

/-- The end of a run of text. -/
def Lexer.endText (l : Lexer) (ctx : TextCtx) (buf : List Char) : Lexer :=
  match ctx with
  | TextCtx.attr n _ => { l with mode := Mode.inTag n }
  | _ => l.emit (Token.CharData (String.mk buf.reverse))

/-- A character reference has been decoded to `c`. -/
def Lexer.entityDone (l : Lexer) (ctx : TextCtx) (buf : List Char) (c : Char) : Lexer :=
  if isInCharacterRange c then { l with mode := Mode.text ctx (c :: buf) '\x00' '\x00' }
  else l.fail

/-- One character inside a run of text (`Decoder.text`). -/
def Lexer.stepText (l : Lexer) (ctx : TextCtx) (buf : List Char) (b0 b1 c : Char) : Lexer :=
  let cdata := match ctx with
    | TextCtx.cdata => true
    | _ => false
  if b0 == ']' && b1 == ']' && c == '>' then
    if cdata then l.endText ctx (buf.drop 2) else l.fail
  else if c == '<' && !cdata then
    match ctx with
    | TextCtx.attr _ _ => l.fail
    | _ => if buf.isEmpty then { l with mode := Mode.tagOpen }
           else { l with mode := Mode.tagOpen, out := Token.CharData (String.mk buf.reverse) :: l.out }
  else
    let isQuote := match ctx with
      | TextCtx.attr _ q => c == q
      | _ => false
    if isQuote then l.endText ctx buf
    else if c == '&' && !cdata then { l with mode := Mode.entStart ctx buf }
    else if !isInCharacterRange c then l.fail
    else if c == '\r' then { l with mode := Mode.text ctx ('\n' :: buf) b1 c }
    else if b1 == '\r' && c == '\n' then { l with mode := Mode.text ctx buf b1 c }
    else { l with mode := Mode.text ctx (c :: buf) b1 c }

/-- One character after the name of an end tag. -/
def Lexer.stepEndSpace (l : Lexer) (n : List Char) (c : Char) : Lexer :=
  if isSpace c then { l with mode := Mode.endSpace n }
  else if c == '>' then l.endTag n
  else l.fail

/-- One character between the attributes of a start tag. -/
def Lexer.stepInTag (l : Lexer) (n : List Char) (c : Char) : Lexer :=
  if isSpace c then { l with mode := Mode.inTag n }
  else if c == '/' then { l with mode := Mode.emptyTag n }
  else if c == '>' then l.startTag n false
  else if isNameStart c then { l with mode := Mode.attrName n [c] }
  else l.fail

/-- One character after the name of an attribute. -/
def Lexer.stepAttrEq (l : Lexer) (n : List Char) (c : Char) : Lexer :=
  if isSpace c then { l with mode := Mode.attrEq n }
  else if c == '=' then { l with mode := Mode.attrQuote n }
  else l.fail

/-- One character inside a processing instruction, after its target. `buf`
holds the content read so far; for the target `xml` the content is checked as an
XML declaration when `?>` is reached. -/
def Lexer.stepPiBody (l : Lexer) (isXml : Bool) (buf : List Char) (b0 c : Char) : Lexer :=
  if b0 == '?' && c == '>' then
    if isXml && !xmlDeclOk (buf.drop 1).reverse then l.fail else l.emit Token.ProcInst
  else { l with mode := Mode.piBody isXml (c :: buf) c }

/-- One character of a directive past the test for its end (the label `HandleB`):
quotes open and close, `>` closes a nested bracket, and after `<` the decoder
looks for `!--`. -/
def Lexer.handleDirective (l : Lexer) (depth : Nat) (quote c : Char) : Lexer :=
  if c == quote then { l with mode := Mode.directive depth '\x00' }
  else if quote != '\x00' then { l with mode := Mode.directive depth quote }
  else if c == '\'' || c == '"' then { l with mode := Mode.directive depth c }
  else if c == '>' then { l with mode := Mode.directive (depth - 1) quote }
  else if c == '<' then { l with mode := Mode.directiveLt depth "!--".data }
  else { l with mode := Mode.directive depth quote }

/-- One character of the input (`Decoder.rawToken` and the checks of
`Decoder.Token` in strict mode). -/
def Lexer.step (l : Lexer) (c : Char) : Lexer :=
  match l.mode with
  | Mode.stopped => l
  | Mode.text ctx buf b0 b1 => l.stepText ctx buf b0 b1 c
  | Mode.entStart ctx buf =>
    if c == '#' then { l with mode := Mode.entHash ctx buf }
    else if isNameByte c then { l with mode := Mode.entName ctx buf [c] }
    else l.fail
  | Mode.entName ctx buf name =>
    if isNameByte c then { l with mode := Mode.entName ctx buf (c :: name) }
    else if c == ';' then
      match entity name.reverse with
      | some r => l.entityDone ctx buf r
      | none => l.fail
    else l.fail
  | Mode.entHash ctx buf =>
    if c == 'x' then { l with mode := Mode.entNum ctx buf 16 [] }
    else
      match digitValue 10 c with
      | some d => { l with mode := Mode.entNum ctx buf 10 [d] }
      | none => l.fail
  | Mode.entNum ctx buf base digits =>
    match digitValue base c with
    | some d => { l with mode := Mode.entNum ctx buf base (d :: digits) }
    | none =>
      if c == ';' && !digits.isEmpty then
        let n := digits.foldr (fun d acc => d + base * acc) 0
        if n ≤ 1114111 then l.entityDone ctx buf (runeOf n) else l.fail
      else l.fail
  | Mode.tagOpen =>
    if c == '/' then { l with mode := Mode.endName [] }
    else if c == '?' then { l with mode := Mode.piTarget [] }
    else if c == '!' then { l with mode := Mode.bang }
    else if isNameStart c then { l with mode := Mode.startName [c] }
    else l.fail
  | Mode.startName n =>
    if isNameByte c then
      if isNameChar c then { l with mode := Mode.startName (c :: n) } else l.fail
    else l.stepInTag n c
  | Mode.inTag n => l.stepInTag n c
  | Mode.attrName n a =>
    if isNameByte c then
      if isNameChar c then { l with mode := Mode.attrName n (c :: a) } else l.fail
    else
      match nsname a with
      | some _ => l.stepAttrEq n c
      | none => l.fail
  | Mode.attrEq n => l.stepAttrEq n c
  | Mode.attrQuote n =>
    if isSpace c then l
    else if c == '"' || c == '\'' then
      { l with mode := Mode.text (TextCtx.attr n c) [] '\x00' '\x00' }
    else l.fail
  | Mode.emptyTag n =>
    if c == '>' then l.startTag n true else l.fail
  | Mode.endName n =>
    if isNameByte c then
      if (n.isEmpty && !isNameStart c) || !isNameChar c then l.fail
      else { l with mode := Mode.endName (c :: n) }
    else if n.isEmpty then l.fail
    else l.stepEndSpace n c
  | Mode.endSpace n => l.stepEndSpace n c
  | Mode.piTarget n =>
    if isNameByte c then
      if (n.isEmpty && !isNameStart c) || !isNameChar c then l.fail
      else { l with mode := Mode.piTarget (c :: n) }
    else if n.isEmpty then l.fail
    else if isSpace c then { l with mode := Mode.piBody (n.reverse == "xml".data) [] '\x00' }
    else l.stepPiBody (n.reverse == "xml".data) [] '\x00' c
  | Mode.piBody isXml buf b0 =>
    if buf.isEmpty && b0 == '\x00' && isSpace c then l
    else l.stepPiBody isXml buf b0 c
  | Mode.bang =>
    if c == '-' then { l with mode := Mode.commentStart }
    else if c == '[' then { l with mode := Mode.cdataStart "CDATA[".data }
    else { l with mode := Mode.directive 0 '\x00' }
  | Mode.commentStart =>
    if c == '-' then { l with mode := Mode.comment '\x00' '\x00' } else l.fail
  | Mode.comment b0 b1 =>
    if b0 == '-' && b1 == '-' then
      if c == '>' then l.emit Token.Comment else l.fail
    else { l with mode := Mode.comment b1 c }
  | Mode.cdataStart expect =>
    match expect with
    | [] => l.fail
    | [e] =>
      if c == e then { l with mode := Mode.text TextCtx.cdata [] '\x00' '\x00' } else l.fail
    | e :: rest => if c == e then { l with mode := Mode.cdataStart rest } else l.fail
  | Mode.directive depth quote =>
    if quote == '\x00' && c == '>' && depth == 0 then l.emit Token.Directive
    else l.handleDirective depth quote c
  | Mode.directiveLt depth expect =>
    match expect with
    | [] => l.fail
    | [e] =>
      if c == e then { l with mode := Mode.directiveComment depth '\x00' '\x00' }
      else l.handleDirective (depth + 1) '\x00' c
    | e :: rest =>
      if c == e then { l with mode := Mode.directiveLt depth rest }
      else l.handleDirective (depth + 1) '\x00' c
  | Mode.directiveComment depth b0 b1 =>
    if b0 == '-' && b1 == '-' && c == '>' then { l with mode := Mode.directive depth '\x00' }
    else { l with mode := Mode.directiveComment depth b1 c }

/-- The tokenizer before the first character. -/
def Lexer.init : Lexer :=
  { mode := Mode.text TextCtx.chardata [] '\x00' '\x00', stk := [], out := [] }

/-- At the end of the input pending character data is still delivered; anything
else that is unfinished is an error. -/
def Lexer.finish (l : Lexer) : List Token :=
  match l.mode with
  | Mode.text TextCtx.chardata buf _ _ =>
    if buf.isEmpty then l.out.reverse
    else (Token.CharData (String.mk buf.reverse) :: l.out).reverse
  | _ => l.out.reverse

/-- The tokens that `Decoder.Token` delivers for an input, up to its first
error or the end of the input. The decoder is the strict one that
`xml.Unmarshal` creates, without `CharsetReader` and without entities of its
own. The input is Unicode text, so the error for bytes that are not UTF-8 has
no counterpart here. -/
def tokens (input : String) : List Token :=
  (input.data.foldl Lexer.step Lexer.init).finish

end xml

/-- The innermost struct of `nvidiaSmiLog`, field `vgpu_software_licensed_product`. -/
structure VGPUSoftwareLicensedProductT where
  LicensedProductName : String := ""
  LicenseStatus : String := ""
  deriving DecidableEq, Repr

/-- The struct of the field `gpu` of `nvidiaSmiLog`. -/
structure GPUT where
  VGPUSoftwareLicensedProduct : VGPUSoftwareLicensedProductT := {}
  deriving DecidableEq, Repr

/-- The type `nvidiaSmiLog`; `XMLName` holds the local name of the root. -/
structure nvidiaSmiLog where
  XMLName : String := ""
  GPU : GPUT := {}
  deriving DecidableEq, Repr

namespace xml

/-- Where `Decoder.unmarshal` stands in `nvidiaSmiLog`: before the root, in the
loop of one of the three structs, in one of the two string fields (with the
character data gathered so far), or inside `Decoder.Skip` for an element that
no field takes (with the depth of `Skip` and the place to return to). -/
inductive Frame where
  | seekRoot
  | inLog
  | inGPU
  | inProduct
  | inProductName (data : String)
  | inStatus (data : String)
  | skipping (depth : Nat) (ret : Frame)
  | done
  | failed
  deriving DecidableEq, Repr

/-- The state of the decoding: the place and the value filled in so far. -/
structure DecState where
  frame : Frame
  log : nvidiaSmiLog
  deriving DecidableEq, Repr

/-- The effect of one token on the decoding (`Decoder.unmarshal` and
`Decoder.unmarshalPath` for the fields of `nvidiaSmiLog`). A string field is
assigned when its end tag arrives. -/
def step (s : DecState) (t : Token) : DecState :=
  match s.frame, t with
  | Frame.seekRoot, Token.StartElement n =>
    if n = "nvidia_smi_log" then { frame := Frame.inLog, log := { s.log with XMLName := n } }
    else { s with frame := Frame.failed }
  | Frame.seekRoot, _ => s
  | Frame.inLog, Token.StartElement n =>
    if n = "gpu" then { s with frame := Frame.inGPU }
    else { s with frame := Frame.skipping 0 Frame.inLog }
  | Frame.inLog, Token.EndElement _ => { s with frame := Frame.done }
  | Frame.inLog, _ => s
  | Frame.inGPU, Token.StartElement n =>
    if n = "vgpu_software_licensed_product" then { s with frame := Frame.inProduct }
    else { s with frame := Frame.skipping 0 Frame.inGPU }
  | Frame.inGPU, Token.EndElement _ => { s with frame := Frame.inLog }
  | Frame.inGPU, _ => s
  | Frame.inProduct, Token.StartElement n =>
    if n = "licensed_product_name" then { s with frame := Frame.inProductName "" }
    else if n = "license_status" then { s with frame := Frame.inStatus "" }
    else { s with frame := Frame.skipping 0 Frame.inProduct }
  | Frame.inProduct, Token.EndElement _ => { s with frame := Frame.inGPU }
  | Frame.inProduct, _ => s
  | Frame.inProductName d, Token.StartElement _ =>
    { s with frame := Frame.skipping 0 (Frame.inProductName d) }
  | Frame.inProductName d, Token.EndElement _ =>
    { frame := Frame.inProduct,
      log := { s.log with GPU := { VGPUSoftwareLicensedProduct :=
        { s.log.GPU.VGPUSoftwareLicensedProduct with LicensedProductName := d } } } }
  | Frame.inProductName d, Token.CharData c => { s with frame := Frame.inProductName (d ++ c) }
  | Frame.inProductName _, _ => s
  | Frame.inStatus d, Token.StartElement _ =>
    { s with frame := Frame.skipping 0 (Frame.inStatus d) }
  | Frame.inStatus d, Token.EndElement _ =>
    { frame := Frame.inProduct,
      log := { s.log with GPU := { VGPUSoftwareLicensedProduct :=
        { s.log.GPU.VGPUSoftwareLicensedProduct with LicenseStatus := d } } } }
  | Frame.inStatus d, Token.CharData c => { s with frame := Frame.inStatus (d ++ c) }
  | Frame.inStatus _, _ => s
  | Frame.skipping k ret, Token.StartElement _ => { s with frame := Frame.skipping (k + 1) ret }
  | Frame.skipping k ret, Token.EndElement _ =>
    match k with
    | 0 => { s with frame := ret }
    | k + 1 => { s with frame := Frame.skipping k ret }
  | Frame.skipping _ _, _ => s
  | Frame.done, _ => s
  | Frame.failed, _ => s

/-- The decoding of a token stream into a zero `nvidiaSmiLog`. -/
def decode (toks : List Token) : DecState :=
  toks.foldl step { frame := Frame.seekRoot, log := {} }

/-- The function `Unmarshal` for `nvidiaSmiLog`: the value as far as it was
filled in, and whether an error is returned. The decoding succeeds when the end
tag of the root is reached; a token stream that ends before (a syntax error, a
truncated document, no root at all) or a root with another name is an error,
and what was assigned before the error stays assigned. -/
def Unmarshal (data : String) : nvidiaSmiLog × Bool :=
  let s := decode (tokens data)
  (s.log, s.frame != Frame.done)

end xml

/-- The licence status text that `IsLicensed` reads out of the report; the
error of `xml.Unmarshal` is dropped. -/
def licenseStatusOf (output : String) : String :=
  (xml.Unmarshal output).1.GPU.VGPUSoftwareLicensedProduct.LicenseStatus

/-- The function `IsLicensed`. -/
def IsLicensed (output : String) : Bool :=
  matchStatus (licenseStatusOf output)

namespace xml

/-- The name of the root: the first start tag of a token stream. -/
def rootName : List Token → Option String
  | [] => none
  | Token.StartElement n :: _ => some n
  | _ :: ts => rootName ts

/-- The path of the licence status in the report, innermost element first. -/
def statusPath : List String :=
  ["license_status", "vgpu_software_licensed_product", "gpu", "nvidia_smi_log"]

/-- Whether a token stream closes an element at the path
`nvidia_smi_log/gpu/vgpu_software_licensed_product/license_status`; `st` holds the
names of the elements open so far, innermost first. -/
def statusClosed : List String → List Token → Bool
  | _, [] => false
  | st, Token.StartElement n :: ts => statusClosed (n :: st) ts
  | st, Token.EndElement _ :: ts => (st == statusPath) || statusClosed st.tail ts
  | st, _ :: ts => statusClosed st ts

/-- The open elements after one more token. -/
def openAfter (st : List String) : Token → List String
  | Token.StartElement n => n :: st
  | Token.EndElement _ => st.tail
  | _ => st

/-- The place of the decoding agrees with the stack of open elements. -/
def Agrees : Frame → List String → Prop
  | Frame.seekRoot, st => st = []
  | Frame.inLog, st => st = ["nvidia_smi_log"]
  | Frame.inGPU, st => st = ["gpu", "nvidia_smi_log"]
  | Frame.inProduct, st => st = ["vgpu_software_licensed_product", "gpu", "nvidia_smi_log"]
  | Frame.inProductName _, st =>
    st = ["licensed_product_name", "vgpu_software_licensed_product", "gpu", "nvidia_smi_log"]
  | Frame.inStatus _, st => st = statusPath
  | Frame.skipping k ret, st =>
    ∃ extra rest, st = extra ++ rest ∧ extra.length = k + 1 ∧ Agrees ret rest
  | Frame.done, _ => True
  | Frame.failed, _ => True

/-- The licence status held by a state of the decoding. -/
def DecState.status (s : DecState) : String :=
  s.log.GPU.VGPUSoftwareLicensedProduct.LicenseStatus

end xml

/-! ## The package `nvLicMon`: configuration, effects and the environment

The calls that leave the program (running a command, the HTTP request, the
parsing of the header by `mime`, the path functions of `filepath` and the file
operations of `os` and `io`) are answered by an environment; the program is the
order in which it makes them and what it does with their answers. -/

/-- The type `ConfigT`. -/
structure ConfigT where
  NvidiaSmiPath : String := ""
  LicensingFilePath : String := ""
  LicenseServerUrl : String := ""
  IgnoreSSL : Bool := false
  deriving DecidableEq, Repr

/-- The package-level variables of `nvLicMon`. -/
structure Globals where
  Config : ConfigT
  NvidiaSmiPath : String
  LicensingFilePath : String
  LicenseServerUrl : String
  IgnoreSSL : Bool
  deriving DecidableEq, Repr

/-- The package-level variables as the program starts. -/
def Globals.init : Globals :=
  { Config := {},
    NvidiaSmiPath := "C:\\Windows\\System32\\nvidia-smi.exe",
    LicensingFilePath := "C:\\Program Files\\NVIDIA Corporation\\vGPU Licensing\\ClientConfigToken\\",
    LicenseServerUrl := "",
    IgnoreSSL := false }

/-- The constant `NVDisplayService`. -/
def NVDisplayService : String := "NVDisplay.ContainerLocalSystem"

/-- The states that the service reports. -/
inductive SvcState where
  | StartPending
  | Running
  | StopPending
  deriving DecidableEq, Repr

/-- What the program does to the world, in the order in which it does it. The
file operations carry their outcome. `fatal` is `log.Fatal`: the error is logged
and the process exits with status 1. -/
inductive Effect where
  | log (msg : String)
  | exec (argv : List String)
  | httpGet (url : String) (insecureSkipVerify : Bool)
  | create (path : String) (ok : Bool)
  | copy (path : String) (ok : Bool)
  | glob (pattern : String)
  | remove (path : String) (ok : Bool)
  | fatal
  | status (state : SvcState)
  | reply
  | elogError
  deriving DecidableEq, Repr

/-- A response of the licence server, as far as the program reads it: the
`Content-Disposition` header, if the response has one. -/
structure Response where
  contentDisposition : Option String
  deriving DecidableEq, Repr

/-- The answers of the world outside the program. `cmdOutput` is the standard
output captured from a command (empty when it cannot be run), `httpGet` the
response to a GET request (`none` for a transport error), `mimeParams` the
parameters that `mime.ParseMediaType` finds in a header value (`none` for an
error), `join` is `filepath.Join`, `globMatch pattern path` tells whether
`filepath.Glob` lists an existing `path` for `pattern`, and `createOk`, `copyOk`,
`removeOk` tell whether `os.Create`, `io.Copy` and `os.Remove` succeed. -/
structure Env where
  cmdOutput : List String → String
  httpGet : String → Bool → Option Response
  mimeParams : String → Option (List (String × String))
  join : String → String → String
  globMatch : String → String → Bool
  createOk : String → Bool
  copyOk : String → Bool
  removeOk : String → Bool

/-- The outcome of a piece of the program: what it did, the files that exist
afterwards, and whether it ended the process through `log.Fatal`. -/
structure Run where
  effects : List Effect
  fs : List String
  exited : Bool
  deriving DecidableEq, Repr

namespace strings

/-- The scan of `ReplaceAll` for a non-empty `old`: after a match the rest of
the matched characters is skipped (`skip` counts them), so matches do not
overlap. -/
def replaceAux (old new : List Char) : Nat → List Char → List Char
  | _, [] => []
  | k + 1, _ :: cs => replaceAux old new k cs
  | 0, c :: cs =>
    if old.isPrefixOf (c :: cs) then new ++ replaceAux old new (old.length - 1) cs
    else c :: replaceAux old new 0 cs

/-- The function `strings.ReplaceAll`: every non-overlapping occurrence of `old`
is replaced by `new`; an empty `old` matches before every character and at the
end. -/
def ReplaceAll (s old new : String) : String :=
  if old.data.isEmpty then ⟨new.data ++ s.data.flatMap (fun c => c :: new.data)⟩
  else ⟨replaceAux old.data new.data 0 s.data⟩

end strings

/-- The function `mime.ParseMediaType`, as far as the program depends on it: an
empty value, which is what `Header.Get` returns for a missing header, has no
media type and is an error; for any other value the environment tells the
parameters or the error. -/
def ParseMediaType (env : Env) (v : String) : Option (List (String × String)) :=
  if v = "" then none else env.mimeParams v

/-- The method `Header.Get` for `Content-Disposition`. -/
def Response.headerGet (resp : Response) : String :=
  resp.contentDisposition.getD ""

/-- The file system after `os.Create` succeeded on `path`. -/
def createFile (fs : List String) (path : String) : List String :=
  if path ∈ fs then fs else fs ++ [path]

/-- The loop over `oldFiles` at the end of `DownloadLicenseToken`: every listed
file other than `filePath` is removed, and a failure to remove is ignored. -/
def removeOldFiles (env : Env) (filePath : String) : List String → List String → List Effect × List String
  | [], fs => ([], fs)
  | oldFile :: rest, fs =>
    if oldFile != filePath then
      let fs1 := if env.removeOk oldFile then fs.filter (fun p => p != oldFile) else fs
      let r := removeOldFiles env filePath rest fs1
      (Effect.remove oldFile (env.removeOk oldFile) :: r.1, r.2)
    else removeOldFiles env filePath rest fs

/-- The name under which `DownloadLicenseToken` stores the token: the `filename`
parameter of the header with every colon replaced by an underscore. -/
def sanitisedName (params : List (String × String)) : String :=
  strings.ReplaceAll ((params.lookup "filename").getD "") ":" "_"

/-- The function `DownloadLicenseToken`. -/
def DownloadLicenseToken (env : Env) (g : Globals) (fs : List String) : Run :=
  let get := Effect.httpGet g.LicenseServerUrl g.IgnoreSSL
  match env.httpGet g.LicenseServerUrl g.IgnoreSSL with
  | none => { effects := [get, Effect.fatal], fs := fs, exited := true }
  | some resp =>
    match ParseMediaType env resp.headerGet with
    | none => { effects := [get, Effect.fatal], fs := fs, exited := true }
    | some params =>
      let filePath := env.join g.LicensingFilePath (sanitisedName params)
      if !env.createOk filePath then
        { effects := [get, Effect.create filePath false, Effect.fatal], fs := fs, exited := true }
      else
        let fs1 := createFile fs filePath
        if !env.copyOk filePath then
          { effects := [get, Effect.create filePath true, Effect.copy filePath false, Effect.fatal],
            fs := fs1, exited := true }
        else
          let pattern := env.join g.LicensingFilePath "*.tok"
          let oldFiles := fs1.filter (env.globMatch pattern)
          let r := removeOldFiles env filePath oldFiles fs1
          { effects := [get, Effect.create filePath true, Effect.copy filePath true,
              Effect.glob pattern] ++ r.1,
            fs := r.2, exited := false }

/-- The function `RunNvidiaSmi`: the command line it runs. -/
def smiCommand (g : Globals) : List String :=
  [g.NvidiaSmiPath, "-q", "-x"]

/-- The function `RunNvidiaSmi`: the output it returns; the error of the
command is dropped. -/
def RunNvidiaSmi (env : Env) (g : Globals) : String :=
  env.cmdOutput (smiCommand g)

/-- The function `RestartService`; the results of both commands are dropped. -/
def RestartService (serviceName : String) : List Effect :=
  [Effect.exec ["net", "stop", serviceName], Effect.exec ["net", "start", serviceName]]

/-- The function `Execute` of `nvLicMon`: one cycle. When `DownloadLicenseToken`
ends the process nothing after it runs. -/
def Execute (env : Env) (g : Globals) (fs : List String) : Run :=
  let output := RunNvidiaSmi env g
  let pre := [Effect.log "Running NVIDIA SMI", Effect.exec (smiCommand g),
    Effect.log "Checking license"]
  if !IsLicensed output then
    let d := DownloadLicenseToken env g fs
    if d.exited then
      { effects := pre ++ [Effect.log "Downloading License Token"] ++ d.effects,
        fs := d.fs, exited := true }
    else
      { effects := pre ++ [Effect.log "Downloading License Token"] ++ d.effects ++
          [Effect.log "Restarting service"] ++ RestartService NVDisplayService,
        fs := d.fs, exited := false }
  else { effects := pre, fs := fs, exited := false }

/-! ## The service loop of `winService` -/

/-- The control requests that the loop tells apart. -/
inductive Cmd where
  | Interrogate
  | Stop
  | Shutdown
  | Other
  deriving DecidableEq, Repr

/-- What the `select` of the loop receives: a tick of the timer, with the
answers of the world during the cycle it starts, or a control request. -/
inductive Event where
  | tick (env : Env)
  | request (cmd : Cmd)

/-- Where the service stands: in its loop, past the loop after a stop or
shutdown request, or gone because `log.Fatal` ended the process. -/
inductive Phase where
  | running
  | stopped
  | exited
  deriving DecidableEq, Repr

/-- The state of the service: what it did so far, the files that exist, and
where it stands. -/
structure Svc where
  effects : List Effect
  fs : List String
  phase : Phase
  deriving DecidableEq, Repr

/-- The branch of the loop for a tick of the timer; the same statements as
`Execute` of `nvLicMon`. -/
def timerBranch (env : Env) (g : Globals) (fs : List String) : Run :=
  let output := RunNvidiaSmi env g
  let pre := [Effect.log "Running NVIDIA SMI", Effect.exec (smiCommand g),
    Effect.log "Checking license"]
  if !IsLicensed output then
    let d := DownloadLicenseToken env g fs
    if d.exited then
      { effects := pre ++ [Effect.log "Downloading License Token"] ++ d.effects,
        fs := d.fs, exited := true }
    else
      { effects := pre ++ [Effect.log "Downloading License Token"] ++ d.effects ++
          [Effect.log "Restarting service"] ++ RestartService NVDisplayService,
        fs := d.fs, exited := false }
  else { effects := pre, fs := fs, exited := false }

/-- One round of the loop of `MyService.Execute`. Outside the loop nothing is
received any more. -/
def loopStep (g : Globals) (s : Svc) (e : Event) : Svc :=
  match s.phase with
  | Phase.running =>
    match e with
    | Event.tick env =>
      let r := timerBranch env g s.fs
      { effects := s.effects ++ r.effects, fs := r.fs,
        phase := if r.exited then Phase.exited else Phase.running }
    | Event.request Cmd.Interrogate => { s with effects := s.effects ++ [Effect.reply] }
    | Event.request Cmd.Stop =>
      { s with effects := s.effects ++ [Effect.status SvcState.StopPending], phase := Phase.stopped }
    | Event.request Cmd.Shutdown =>
      { s with effects := s.effects ++ [Effect.status SvcState.StopPending], phase := Phase.stopped }
    | Event.request Cmd.Other => { s with effects := s.effects ++ [Effect.elogError] }
  | _ => s

/-- The method `MyService.Execute`. `configFile` is what `os.ReadFile` finds in
`config.json` (`none` when it fails) and `jsonUnmarshal` is `json.Unmarshal` into
a `ConfigT` (`none` for an error). The record is stored in the variable `Config`;
the other package-level variables are left as they are. The result is the state
of the service once the given events are received, and the variables. -/
def MyService.Execute (configFile : Option String) (jsonUnmarshal : String → ConfigT → Option ConfigT)
    (g : Globals) (fs : List String) (events : List Event) : Svc × Globals :=
  match configFile with
  | none => ({ effects := [Effect.fatal], fs := fs, phase := Phase.exited }, g)
  | some jsonData =>
    match jsonUnmarshal jsonData g.Config with
    | none => ({ effects := [Effect.fatal], fs := fs, phase := Phase.exited }, g)
    | some cfg =>
      let g1 := { g with Config := cfg }
      (events.foldl (loopStep g1)
        { effects := [Effect.status SvcState.StartPending, Effect.status SvcState.Running],
          fs := fs, phase := Phase.running }, g1)

/-- The service as `main` starts it: `main` calls `RunService` and returns before
any flag is bound, so the package-level variables hold their initial values. -/
def runAsService (configFile : Option String) (jsonUnmarshal : String → ConfigT → Option ConfigT)
    (fs : List String) (events : List Event) : Svc × Globals :=
  MyService.Execute configFile jsonUnmarshal Globals.init fs events

/-! ## A sample environment

An environment for evaluating the program on concrete inputs: a directory
given without a trailing separator, plain file names, and a server that names
the file in a quoted `filename` parameter. -/

/-- The path of a plain file name in a directory. -/
def sampleJoin (dir name : String) : String :=
  dir ++ "\\" ++ name

/-- The match of a pattern made of literal characters and `*`, where `*` stands
for any run of characters other than the separator. -/
def sampleMatch : List Char → List Char → Bool
  | [], s => s.isEmpty
  | '*' :: ps, s => starMatch (fun r => sampleMatch ps r) s
  | p :: ps, s =>
    match s with
    | [] => false
    | c :: cs => p == c && sampleMatch ps cs
where
  /-- The choices for a `*`. -/
  starMatch (k : List Char → Bool) : List Char → Bool
    | [] => k []
    | c :: cs => k (c :: cs) || (c != '\\' && starMatch k cs)

/-- The parameters of a header value of the form `attachment; filename="NAME"`;
any other value counts as an error in this sample. -/
def sampleParams (v : String) : Option (List (String × String)) :=
  let pre := "attachment; filename=\"".data
  if pre.isPrefixOf v.data && v.data.getLast? == some '"' && pre.length < v.data.length then
    some [("filename", ⟨((v.data.drop pre.length).dropLast)⟩)]
  else none

/-- The sample environment: `report` is the output of nvidia-smi; the licence
server answers at `https://ls.example/token` with `resp` (`none` for a transport
error) and a request to any other address is a transport error; every file
operation succeeds. -/
def sampleEnv (report : String) (resp : Option Response) : Env :=
  { cmdOutput := fun _ => report,
    httpGet := fun url _ => if url = "https://ls.example/token" then resp else none,
    mimeParams := sampleParams,
    join := sampleJoin,
    globMatch := fun pattern path => sampleMatch pattern.data path.data,
    createOk := fun _ => true,
    copyOk := fun _ => true,
    removeOk := fun _ => true }

/-- The package-level variables after the flags `-f C:\tok` and
`-u https://ls.example/token` are bound. -/
def sampleGlobals : Globals :=
  { Globals.init with LicensingFilePath := "C:\\tok", LicenseServerUrl := "https://ls.example/token" }

/-- Whether one of the four steps of `DownloadLicenseToken` before the removal
of old files fails: the request, the parsing of the header, the creation of the
file, the copy of the body. -/
def downloadFails (env : Env) (g : Globals) : Bool :=
  match env.httpGet g.LicenseServerUrl g.IgnoreSSL with
  | none => true
  | some resp =>
    match ParseMediaType env resp.headerGet with
    | none => true
    | some params =>
      !env.createOk (env.join g.LicensingFilePath (sanitisedName params)) ||
        !env.copyOk (env.join g.LicensingFilePath (sanitisedName params))

/-- A configuration record as `config.json` may hold it. -/
def sampleConfig : ConfigT :=
  { NvidiaSmiPath := "C:\\Windows\\System32\\nvidia-smi.exe",
    LicensingFilePath := "D:\\tok",
    LicenseServerUrl := "https://ls.example/token",
    IgnoreSSL := true }

/-- A report of nvidia-smi whose licence status carries an expiry, here one in
the past. -/
def licensedReport : String :=
  "<?xml version=\"1.0\" ?>\n<nvidia_smi_log><gpu id=\"00000000:02:00.0\">" ++
  "<vgpu_software_licensed_product><licensed_product_name>NVIDIA RTX Virtual Workstation" ++
  "</licensed_product_name><license_status>Licensed (Expiry: 2023-06-01 12:00:00 GMT)" ++
  "</license_status></vgpu_software_licensed_product></gpu></nvidia_smi_log>"

/-- What a cycle does when the report says licensed: the two log lines around
the diagnostic read, and the read itself. -/
def readOnly (g : Globals) : List Effect :=
  [Effect.log "Running NVIDIA SMI", Effect.exec (smiCommand g), Effect.log "Checking license"]

/-! ## Theorems -/

set_option maxRecDepth 1000000
set_option linter.unusedTactic false
set_option linter.unreachableTactic false

namespace regexp

theorem matchAt_nil (cs : List Char) : matchAt cs [] = true := by
  cases cs <;> rfl

theorem matchAt_lits_iff (l cs : List Char) (r : List Item) :
    matchAt cs (l.map Item.lit ++ r) = true ↔ ∃ rest, cs = l ++ rest ∧ matchAt rest r = true := by
  induction l generalizing cs with
  | nil => simp
  | cons a l ih =>
    cases cs with
    | nil => simp [matchAt]
    | cons c cs =>
      show ((c == a) && matchAt cs (l.map Item.lit ++ r)) = true ↔ _
      rw [Bool.and_eq_true, beq_iff_eq, ih]
      constructor
      · rintro ⟨h1, rest, h2, h⟩
        exact ⟨rest, by rw [h1, h2]; rfl, h⟩
      · rintro ⟨rest, h2, h⟩
        simp only [List.cons_append, List.cons.injEq] at h2
        exact ⟨h2.1, rest, h2.2, h⟩

theorem matchAt_plusClass_of_run (p : Char → Bool) (r : List Item) (t rest : List Char)
    (ht : t ≠ []) (hp : ∀ c ∈ t, p c = true) (hr : matchAt rest r = true) :
    matchAt (t ++ rest) (Item.plusClass p :: r) = true := by
  induction t with
  | nil => exact absurd rfl ht
  | cons c t ih =>
    have hc : p c = true := hp c (List.mem_cons_self _ _)
    cases t with
    | nil => simp [matchAt, hc, hr]
    | cons d t =>
      have := ih (by simp) (fun x hx => hp x (List.mem_cons_of_mem _ hx))
      show (p c && (matchAt (d :: t ++ rest) (Item.plusClass p :: r)
        || matchAt (d :: t ++ rest) r)) = true
      rw [hc, this]
      rfl

theorem run_of_matchAt_plusClass (p : Char → Bool) (r : List Item) (cs : List Char)
    (h : matchAt cs (Item.plusClass p :: r) = true) :
    ∃ t rest, cs = t ++ rest ∧ t ≠ [] ∧ (∀ c ∈ t, p c = true) ∧ matchAt rest r = true := by
  induction cs with
  | nil => simp [matchAt] at h
  | cons c cs ih =>
    simp only [matchAt, Bool.and_eq_true, Bool.or_eq_true] at h
    obtain ⟨hc, h | h⟩ := h
    · obtain ⟨t, rest, rfl, -, hp, hr⟩ := ih h
      refine ⟨c :: t, rest, rfl, by simp, ?_, hr⟩
      intro x hx
      rcases List.mem_cons.1 hx with rfl | hx
      · exact hc
      · exact hp x hx
    · exact ⟨[c], cs, rfl, by simp, by simpa using hc, h⟩

theorem matchAt_plusClass_iff (p : Char → Bool) (r : List Item) (cs : List Char) :
    matchAt cs (Item.plusClass p :: r) = true ↔
      ∃ t rest, cs = t ++ rest ∧ t ≠ [] ∧ (∀ c ∈ t, p c = true) ∧ matchAt rest r = true := by
  constructor
  · exact run_of_matchAt_plusClass p r cs
  · rintro ⟨t, rest, rfl, ht, hp, hr⟩
    exact matchAt_plusClass_of_run p r t rest ht hp hr

theorem matchAnywhere_iff (re : List Item) (cs : List Char) :
    matchAnywhere re cs = true ↔ ∃ p rest, cs = p ++ rest ∧ matchAt rest re = true := by
  induction cs with
  | nil =>
    simp only [matchAnywhere]
    constructor
    · intro h
      exact ⟨[], [], rfl, h⟩
    · rintro ⟨p, rest, h, hm⟩
      obtain ⟨-, rfl⟩ := List.append_eq_nil.1 h.symm
      exact hm
  | cons c cs ih =>
    simp only [matchAnywhere, Bool.or_eq_true, ih]
    constructor
    · rintro (h | ⟨p, rest, rfl, h⟩)
      · exact ⟨[], c :: cs, rfl, h⟩
      · exact ⟨c :: p, rest, rfl, h⟩
    · rintro ⟨p, rest, h, hm⟩
      cases p with
      | nil =>
        simp only [List.nil_append] at h
        subst h
        exact Or.inl hm
      | cons d p =>
        simp only [List.cons_append, List.cons.injEq] at h
        obtain ⟨rfl, rfl⟩ := h
        exact Or.inr ⟨p, rest, rfl, hm⟩

end regexp

/-- The status texts that the pattern of `IsLicensed` accepts, on character
lists. -/
theorem matchAnywhere_licenseRegex_iff (cs : List Char) :
    regexp.matchAnywhere licenseRegex cs = true ↔
      ∃ p t r, cs = p ++ ("Licensed (Expiry: ".data ++ (t ++ (" GMT)".data ++ r))) ∧
        t ≠ [] ∧ ∀ c ∈ t, expiryClass c = true := by
  rw [regexp.matchAnywhere_iff]
  constructor
  · rintro ⟨p, rest, rfl, h⟩
    simp only [licenseRegex, regexp.lits, List.append_assoc, List.singleton_append] at h
    rw [regexp.matchAt_lits_iff] at h
    obtain ⟨rest1, rfl, h⟩ := h
    rw [regexp.matchAt_plusClass_iff] at h
    obtain ⟨t, rest2, rfl, ht, hp, h⟩ := h
    have h2 := (regexp.matchAt_lits_iff " GMT)".data rest2 []).1 (by simpa using h)
    obtain ⟨r, rfl, -⟩ := h2
    exact ⟨p, t, r, rfl, ht, hp⟩
  · rintro ⟨p, t, r, rfl, ht, hp⟩
    refine ⟨p, _, rfl, ?_⟩
    simp only [licenseRegex, regexp.lits, List.append_assoc, List.singleton_append]
    rw [regexp.matchAt_lits_iff]
    refine ⟨_, rfl, ?_⟩
    rw [regexp.matchAt_plusClass_iff]
    refine ⟨t, _, rfl, ht, hp, ?_⟩
    have := (regexp.matchAt_lits_iff " GMT)".data (" GMT)".data ++ r) []).2
      ⟨r, rfl, regexp.matchAt_nil r⟩
    simpa using this

theorem fitsShape_class (sh : List (Option Char))
    (hsh : ∀ a, some a ∈ sh → expiryClass a = true) (t : List Char)
    (h : fitsShape t sh = true) : ∀ c ∈ t, expiryClass c = true := by
  induction sh generalizing t with
  | nil =>
    cases t with
    | nil => simp
    | cons c cs => simp [fitsShape] at h
  | cons o sh ih =>
    cases t with
    | nil => cases o <;> simp [fitsShape] at h
    | cons c cs =>
      have ih2 := ih (fun a ha => hsh a (List.mem_cons_of_mem _ ha)) cs
      cases o with
      | none =>
        simp only [fitsShape, Bool.and_eq_true] at h
        intro x hx
        rcases List.mem_cons.1 hx with rfl | hx
        · simp [expiryClass, h.1]
        · exact ih2 h.2 x hx
      | some a =>
        simp only [fitsShape, Bool.and_eq_true, beq_iff_eq] at h
        intro x hx
        rcases List.mem_cons.1 hx with rfl | hx
        · rw [h.1]
          exact hsh a (List.mem_cons_self _ _)
        · exact ih2 h.2 x hx

theorem isTimestamp_class (t : String) (h : isTimestamp t = true) :
    t.data ≠ [] ∧ ∀ c ∈ t.data, expiryClass c = true := by
  refine ⟨?_, fitsShape_class timestampShape ?_ t.data h⟩
  · intro h0
    rw [isTimestamp, h0] at h
    simp [timestampShape, fitsShape] at h
  · intro a ha
    simp only [timestampShape, List.mem_cons, Option.some.injEq, List.mem_singleton,
      List.not_mem_nil, or_false, false_or, reduceCtorEq] at ha
    rcases ha with rfl | rfl | rfl | rfl | rfl <;> decide

/-- The pattern of `IsLicensed` on strings: it accepts a status text exactly when
the text holds the literal `Licensed (Expiry: `, then one or more characters of
the class, then the literal ` GMT)`. -/
theorem matchStatus_iff (status : String) :
    matchStatus status = true ↔
      ∃ p t s : String, status = p ++ "Licensed (Expiry: " ++ t ++ " GMT)" ++ s ∧
        t ≠ "" ∧ ∀ c ∈ t.data, expiryClass c = true := by
  unfold matchStatus regexp.MatchString
  rw [matchAnywhere_licenseRegex_iff]
  constructor
  · rintro ⟨p, t, r, h, ht, hc⟩
    refine ⟨⟨p⟩, ⟨t⟩, ⟨r⟩, ?_, ?_, hc⟩
    · apply String.ext
      simp only [String.data_append, List.append_assoc]
      exact h
    · intro h0
      exact ht (congrArg String.data h0)
  · rintro ⟨p, t, s, rfl, ht, hc⟩
    refine ⟨p.data, t.data, s.data, ?_, ?_, hc⟩
    · simp only [String.data_append, List.append_assoc]
    · intro h0
      exact ht (String.ext h0)

/-- C1: every status text `p ++ "Licensed (Expiry: " ++ t ++ " GMT)" ++ s` with `t`
of the shape `YYYY-MM-DD HH:MM:SS` is matched by the pattern of `IsLicensed`,
whatever the digits of `t` are and whatever text surrounds it. -/
theorem matchStatus_of_timestamp (p s t : String) (h : isTimestamp t = true) :
    matchStatus (p ++ "Licensed (Expiry: " ++ t ++ " GMT)" ++ s) = true := by
  obtain ⟨hne, hc⟩ := isTimestamp_class t h
  exact (matchStatus_iff _).2 ⟨p, t, s, rfl, fun h0 => hne (congrArg String.data h0), hc⟩

/-- C1, at a date in the past with text around it. -/
theorem matchStatus_of_timestamp_witness :
    isTimestamp "2023-06-01 12:00:00" = true ∧
      matchStatus ("vGPU: " ++ "Licensed (Expiry: " ++ "2023-06-01 12:00:00" ++ " GMT)" ++ "!") = true :=
  ⟨by decide, matchStatus_of_timestamp "vGPU: " "!" "2023-06-01 12:00:00" (by decide)⟩

/-- C2 as stated fails: the expiry `1` is not of the shape `YYYY-MM-DD HH:MM:SS`
and the text holds no well-formed occurrence, yet the pattern matches and
`IsLicensed` returns true on a report with this status. -/
theorem malformed_expiry_is_licensed :
    isTimestamp "1" = false ∧
      (¬ ∃ p t s : String, "Licensed (Expiry: 1 GMT)" = p ++ "Licensed (Expiry: " ++ t ++ " GMT)" ++ s ∧
        isTimestamp t = true) ∧
      matchStatus "Licensed (Expiry: 1 GMT)" = true ∧
      IsLicensed ("<nvidia_smi_log><gpu><vgpu_software_licensed_product><license_status>" ++
        "Licensed (Expiry: 1 GMT)" ++
        "</license_status></vgpu_software_licensed_product></gpu></nvidia_smi_log>") = true := by
  refine ⟨by decide, ?_, by decide, by decide⟩
  rintro ⟨p, t, s, h, ht⟩
  have hl := congrArg String.length h
  have htl : t.length = 19 := by
    have h1 : fitsShape t.data timestampShape = true := ht
    have : ∀ (cs : List Char) (sh : List (Option Char)), fitsShape cs sh = true →
        cs.length = sh.length := by
      intro cs
      induction cs with
      | nil =>
        intro sh hs
        cases sh with
        | nil => rfl
        | cons o sh => cases o <;> simp [fitsShape] at hs
      | cons c cs ih =>
        intro sh hs
        cases sh with
        | nil => simp [fitsShape] at hs
        | cons o sh =>
          cases o <;> simp only [fitsShape, Bool.and_eq_true] at hs <;>
            simp [ih sh hs.2]
    exact this t.data timestampShape h1
  simp only [String.length_append] at hl
  have e1 : "Licensed (Expiry: 1 GMT)".length = 24 := by decide
  have e2 : "Licensed (Expiry: ".length = 18 := by decide
  have e3 : " GMT)".length = 5 := by decide
  omega

/-- C2, amended: `IsLicensed` matches a status text exactly when the text holds
the literal `Licensed (Expiry: `, then a non-empty run of digits, hyphens, colons
and spaces, then the literal ` GMT)`; the number of digits and their grouping
are not checked. -/
theorem matchStatus_iff_expiry_run (status : String) :
    matchStatus status = true ↔
      ∃ p t s : String, status = p ++ "Licensed (Expiry: " ++ t ++ " GMT)" ++ s ∧
        t ≠ "" ∧ ∀ c ∈ t.data, (c.isDigit || c == '-' || c == ':' || c == ' ') = true :=
  matchStatus_iff status

/-- C3: a status text that does not contain the literal `Licensed (Expiry: ` is
not matched by the pattern of `IsLicensed`. -/
theorem matchStatus_false_of_no_literal (status : String)
    (h : ¬ "Licensed (Expiry: ".data <:+: status.data) : matchStatus status = false := by
  cases hm : matchStatus status with
  | false => rfl
  | true =>
    exfalso
    obtain ⟨p, t, s, rfl, -, -⟩ := (matchStatus_iff status).1 hm
    apply h
    refine ⟨p.data, t.data ++ (" GMT)".data ++ s.data), ?_⟩
    simp only [String.data_append, List.append_assoc]

/-- C3, at the empty string, at `Unlicensed` and at `License expired`. -/
theorem matchStatus_false_of_no_literal_witness :
    (¬ "Licensed (Expiry: ".data <:+: "".data ∧ matchStatus "" = false) ∧
    (¬ "Licensed (Expiry: ".data <:+: "Unlicensed".data ∧ matchStatus "Unlicensed" = false) ∧
    (¬ "Licensed (Expiry: ".data <:+: "License expired".data ∧
      matchStatus "License expired" = false) :=
  ⟨⟨by decide, matchStatus_false_of_no_literal "" (by decide)⟩,
   ⟨by decide, matchStatus_false_of_no_literal "Unlicensed" (by decide)⟩,
   ⟨by decide, matchStatus_false_of_no_literal "License expired" (by decide)⟩⟩

namespace xml

theorem step_status_of_agrees (s : DecState) (st : List String) (t : Token)
    (h : Agrees s.frame st) :
    Agrees (step s t).frame (openAfter st t) ∧
      ((step s t).status = s.status ∨ ∃ n, t = Token.EndElement n ∧ st = statusPath) := by
  obtain ⟨frame, log⟩ := s
  cases frame with
  | seekRoot =>
    cases t <;> simp_all [step, Agrees, openAfter, DecState.status]
    all_goals (try split_ifs)
    all_goals (try simp_all [Agrees, DecState.status, statusPath])
    all_goals (first | assumption | exact ⟨[_], rfl, rfl⟩ | rfl)
  | inLog =>
    cases t <;> simp_all [step, Agrees, openAfter, DecState.status]
    all_goals (try split_ifs)
    all_goals (try simp_all [Agrees, DecState.status, statusPath])
    all_goals (first | assumption | exact ⟨[_], rfl, rfl⟩ | rfl)
  | inGPU =>
    cases t <;> simp_all [step, Agrees, openAfter, DecState.status]
    all_goals (try split_ifs)
    all_goals (try simp_all [Agrees, DecState.status, statusPath])
    all_goals (first | assumption | exact ⟨[_], rfl, rfl⟩ | rfl)
  | inProduct =>
    cases t <;> simp_all [step, Agrees, openAfter, DecState.status]
    all_goals (try split_ifs)
    all_goals (try simp_all [Agrees, DecState.status, statusPath])
    all_goals (first | assumption | exact ⟨[_], rfl, rfl⟩ | rfl)
  | inProductName d =>
    cases t <;> simp_all [step, Agrees, openAfter, DecState.status]
    all_goals (try split_ifs)
    all_goals (try simp_all [Agrees, DecState.status, statusPath])
    all_goals (first | assumption | exact ⟨[_], rfl, rfl⟩ | rfl)
  | inStatus d =>
    cases t <;> simp_all [step, Agrees, openAfter, DecState.status]
    all_goals (try split_ifs)
    all_goals (try simp_all [Agrees, DecState.status, statusPath])
    all_goals (first | assumption | exact ⟨[_], rfl, rfl⟩ | rfl)
  | skipping k ret =>
    obtain ⟨extra, rest, rfl, hl, hr⟩ := h
    cases t with
    | StartElement n =>
      refine ⟨⟨n :: extra, rest, rfl, by simp [hl], hr⟩, Or.inl rfl⟩
    | EndElement n =>
      cases k with
      | zero =>
        cases extra with
        | nil => simp at hl
        | cons e extra =>
          have : extra = [] := by
            cases extra with
            | nil => rfl
            | cons _ _ => simp at hl
          subst this
          exact ⟨by simpa [step, openAfter] using hr, Or.inl rfl⟩
      | succ k =>
        cases extra with
        | nil => simp at hl
        | cons e extra =>
          refine ⟨⟨extra, rest, by simp [openAfter], by simpa using hl, hr⟩, Or.inl rfl⟩
    | CharData d => exact ⟨⟨extra, rest, rfl, hl, hr⟩, Or.inl rfl⟩
    | Comment => exact ⟨⟨extra, rest, rfl, hl, hr⟩, Or.inl rfl⟩
    | ProcInst => exact ⟨⟨extra, rest, rfl, hl, hr⟩, Or.inl rfl⟩
    | Directive => exact ⟨⟨extra, rest, rfl, hl, hr⟩, Or.inl rfl⟩
  | done => cases t <;> simp [step, Agrees, DecState.status]
  | failed => cases t <;> simp [step, Agrees, DecState.status]

theorem statusClosed_cons (st : List String) (t : Token) (ts : List Token) :
    statusClosed st (t :: ts) =
      ((match t with
        | Token.EndElement _ => st == statusPath
        | _ => false) || statusClosed (openAfter st t) ts) := by
  cases t <;> simp [statusClosed, openAfter]

theorem foldl_status_of_agrees (toks : List Token) (s : DecState) (st : List String)
    (h : Agrees s.frame st) (hc : statusClosed st toks = false) :
    (toks.foldl step s).status = s.status := by
  induction toks generalizing s st with
  | nil => rfl
  | cons t ts ih =>
    rw [statusClosed_cons, Bool.or_eq_false_iff] at hc
    obtain ⟨h1, h2⟩ := step_status_of_agrees s st t h
    rw [List.foldl_cons, ih (step s t) (openAfter st t) h1 hc.2]
    rcases h2 with h2 | ⟨n, rfl, rfl⟩
    · exact h2
    · simp at hc

theorem foldl_step_failed (toks : List Token) (log : nvidiaSmiLog) :
    toks.foldl step { frame := Frame.failed, log := log } = { frame := Frame.failed, log := log } := by
  induction toks with
  | nil => rfl
  | cons t ts ih =>
    rw [List.foldl_cons]
    have : step { frame := Frame.failed, log := log } t = { frame := Frame.failed, log := log } := by
      cases t <;> rfl
    rw [this, ih]

theorem decode_status_of_root (toks : List Token) (h : rootName toks ≠ some "nvidia_smi_log") :
    (decode toks).status = "" := by
  unfold decode
  induction toks with
  | nil => rfl
  | cons t ts ih =>
    cases t with
    | StartElement n =>
      have hn : n ≠ "nvidia_smi_log" := by simpa [rootName] using h
      have : step { frame := Frame.seekRoot, log := {} } (Token.StartElement n) =
          { frame := Frame.failed, log := {} } := by
        simp [step, hn]
      rw [List.foldl_cons, this, foldl_step_failed]
      rfl
    | EndElement n => exact ih (by simpa [rootName] using h)
    | CharData d => exact ih (by simpa [rootName] using h)
    | Comment => exact ih (by simpa [rootName] using h)
    | ProcInst => exact ih (by simpa [rootName] using h)
    | Directive => exact ih (by simpa [rootName] using h)

theorem decode_status_of_not_closed (toks : List Token) (h : statusClosed [] toks = false) :
    (decode toks).status = "" :=
  foldl_status_of_agrees toks { frame := Frame.seekRoot, log := {} } [] rfl h

end xml

theorem matchStatus_empty : matchStatus "" = false := by decide

/-- The decoder on four reports around a licensed one: a comment inside a
document type declaration is passed over, quote included, and the report is
read; an XML declaration with a version other than 1.0 or an encoding other
than UTF-8 stops the decoder before any element, and so does an element whose
name is outside the name tables, here the multiplication sign. -/
theorem decoder_checks :
    IsLicensed ("<!DOCTYPE nvidia_smi_log [ <!-- don't --> ]>" ++ licensedReport) = true ∧
    IsLicensed ("<?xml version=\"1.1\"?>" ++
      "<nvidia_smi_log><gpu><vgpu_software_licensed_product><license_status>" ++
      "Licensed (Expiry: 2024-01-01 00:00:00 GMT)</license_status>" ++
      "</vgpu_software_licensed_product></gpu></nvidia_smi_log>") = false ∧
    IsLicensed ("<?xml version=\"1.0\" encoding=\"ISO-8859-1\"?>" ++
      "<nvidia_smi_log><gpu><vgpu_software_licensed_product><license_status>" ++
      "Licensed (Expiry: 2024-01-01 00:00:00 GMT)</license_status>" ++
      "</vgpu_software_licensed_product></gpu></nvidia_smi_log>") = false ∧
    IsLicensed ("<nvidia_smi_log><×/><gpu><vgpu_software_licensed_product><license_status>" ++
      "Licensed (Expiry: 2024-01-01 00:00:00 GMT)</license_status>" ++
      "</vgpu_software_licensed_product></gpu></nvidia_smi_log>") = false := by
  refine ⟨by decide, by decide, by decide, by decide⟩

/-- C4 as stated fails: on a report cut off right after the end tag of
`license_status` the decoding fails with an error, yet the status text read
before the error is kept and `IsLicensed` returns true. -/
theorem truncated_report_is_licensed :
    (xml.Unmarshal ("<nvidia_smi_log><gpu><vgpu_software_licensed_product><license_status>" ++
        "Licensed (Expiry: 2024-01-01 00:00:00 GMT)</license_status>")).2 = true ∧
      licenseStatusOf ("<nvidia_smi_log><gpu><vgpu_software_licensed_product><license_status>" ++
        "Licensed (Expiry: 2024-01-01 00:00:00 GMT)</license_status>") =
        "Licensed (Expiry: 2024-01-01 00:00:00 GMT)" ∧
      IsLicensed ("<nvidia_smi_log><gpu><vgpu_software_licensed_product><license_status>" ++
        "Licensed (Expiry: 2024-01-01 00:00:00 GMT)</license_status>") = true := by
  refine ⟨by decide, by decide, by decide⟩

/-- C4, amended: `IsLicensed` is a total function of the report, it raises no
error. The status text it extracts is empty, and its result is false, for the
empty report, for every report whose first element is not `nvidia_smi_log`, and
for every report, well-formed or not, in which no element
`nvidia_smi_log/gpu/vgpu_software_licensed_product/license_status` is closed before
the decoding stops. -/
theorem licenseStatus_empty_of_no_status_element :
    (licenseStatusOf "" = "" ∧ IsLicensed "" = false) ∧
    (∀ output : String, xml.rootName (xml.tokens output) ≠ some "nvidia_smi_log" →
      licenseStatusOf output = "" ∧ IsLicensed output = false) ∧
    (∀ output : String, xml.statusClosed [] (xml.tokens output) = false →
      licenseStatusOf output = "" ∧ IsLicensed output = false) := by
  have key : ∀ output : String, licenseStatusOf output = "" →
      licenseStatusOf output = "" ∧ IsLicensed output = false := by
    intro output h
    refine ⟨h, ?_⟩
    unfold IsLicensed
    rw [h]
    exact matchStatus_empty
  refine ⟨key "" (by decide), ?_, ?_⟩
  · intro output h
    exact key output (xml.decode_status_of_root _ h)
  · intro output h
    exact key output (xml.decode_status_of_not_closed _ h)

/-- C4, amended, at a report with another root, at a well-formed report
without a `license_status` element, at a report whose `license_status` stands
outside `vgpu_software_licensed_product`, and at a report cut off inside the
`license_status` element. -/
theorem licenseStatus_empty_of_no_status_element_witness :
    (xml.rootName (xml.tokens "<log><gpu></gpu></log>") ≠ some "nvidia_smi_log" ∧
      licenseStatusOf "<log><gpu></gpu></log>" = "" ∧
      IsLicensed "<log><gpu></gpu></log>" = false) ∧
    (xml.statusClosed [] (xml.tokens
        "<nvidia_smi_log><gpu><vgpu_software_licensed_product/></gpu></nvidia_smi_log>") = false ∧
      licenseStatusOf
        "<nvidia_smi_log><gpu><vgpu_software_licensed_product/></gpu></nvidia_smi_log>" = "" ∧
      IsLicensed
        "<nvidia_smi_log><gpu><vgpu_software_licensed_product/></gpu></nvidia_smi_log>" = false) ∧
    (xml.statusClosed [] (xml.tokens
        "<nvidia_smi_log><gpu><license_status>Licensed (Expiry: 1 GMT)</license_status></gpu></nvidia_smi_log>")
        = false ∧
      IsLicensed
        "<nvidia_smi_log><gpu><license_status>Licensed (Expiry: 1 GMT)</license_status></gpu></nvidia_smi_log>"
        = false) ∧
    (xml.statusClosed [] (xml.tokens
        "<nvidia_smi_log><gpu><vgpu_software_licensed_product><license_status>Licensed (Expiry: 1 GMT)")
        = false ∧
      IsLicensed
        "<nvidia_smi_log><gpu><vgpu_software_licensed_product><license_status>Licensed (Expiry: 1 GMT)"
        = false) :=
  ⟨⟨by decide, licenseStatus_empty_of_no_status_element.2.1 _ (by decide)⟩,
   ⟨by decide, licenseStatus_empty_of_no_status_element.2.2 _ (by decide)⟩,
   ⟨by decide, (licenseStatus_empty_of_no_status_element.2.2 _ (by decide)).2⟩,
   ⟨by decide, (licenseStatus_empty_of_no_status_element.2.2 _ (by decide)).2⟩⟩

theorem removeOldFiles_effects (env : Env) (filePath : String) (oldFiles fs : List String) :
    ∀ e ∈ (removeOldFiles env filePath oldFiles fs).1,
      ∃ p, e = Effect.remove p (env.removeOk p) ∧ p ∈ oldFiles ∧ p ≠ filePath := by
  induction oldFiles generalizing fs with
  | nil => simp [removeOldFiles]
  | cons o rest ih =>
    intro e he
    by_cases h : o = filePath
    · subst h
      simp only [removeOldFiles, bne_self_eq_false, Bool.false_eq_true, ↓reduceIte] at he
      obtain ⟨p, hp, hm, hn⟩ := ih fs e he
      exact ⟨p, hp, List.mem_cons_of_mem _ hm, hn⟩
    · have hb : (o != filePath) = true := by simpa using h
      simp only [removeOldFiles, hb, ↓reduceIte, List.mem_cons] at he
      rcases he with rfl | he
      · exact ⟨o, rfl, List.mem_cons_self _ _, h⟩
      · obtain ⟨p, hp, hm, hn⟩ := ih _ e he
        exact ⟨p, hp, List.mem_cons_of_mem _ hm, hn⟩

theorem removeOldFiles_fs (env : Env) (filePath : String) (oldFiles fs : List String) (p : String) :
    p ∈ (removeOldFiles env filePath oldFiles fs).2 ↔
      p ∈ fs ∧ (p ∈ oldFiles → p = filePath ∨ env.removeOk p = false) := by
  induction oldFiles generalizing fs with
  | nil => simp [removeOldFiles]
  | cons o rest ih =>
    by_cases h : o = filePath
    · subst h
      simp only [removeOldFiles, bne_self_eq_false, Bool.false_eq_true, ↓reduceIte, ih,
        List.mem_cons]
      constructor
      · rintro ⟨h1, h2⟩
        refine ⟨h1, ?_⟩
        rintro (rfl | h3)
        · exact Or.inl rfl
        · exact h2 h3
      · rintro ⟨h1, h2⟩
        exact ⟨h1, fun h3 => h2 (Or.inr h3)⟩
    · have hb : (o != filePath) = true := by simpa using h
      simp only [removeOldFiles, hb, ↓reduceIte, ih, List.mem_cons]
      by_cases hr : env.removeOk o = true
      · simp only [hr, ↓reduceIte, List.mem_filter, bne_iff_ne, ne_eq]
        constructor
        · rintro ⟨⟨h1, h2⟩, h3⟩
          refine ⟨h1, ?_⟩
          rintro (rfl | h4)
          · exact absurd rfl h2
          · exact h3 h4
        · rintro ⟨h1, h2⟩
          refine ⟨⟨h1, ?_⟩, fun h3 => h2 (Or.inr h3)⟩
          rintro rfl
          rcases h2 (Or.inl rfl) with h4 | h4
          · exact h h4
          · rw [hr] at h4
            exact absurd h4 (by simp)
      · have hr2 : env.removeOk o = false := by simpa using hr
        simp only [hr2, Bool.false_eq_true, ↓reduceIte]
        constructor
        · rintro ⟨h1, h2⟩
          refine ⟨h1, ?_⟩
          rintro (rfl | h4)
          · exact Or.inr hr2
          · exact h2 h4
        · rintro ⟨h1, h2⟩
          exact ⟨h1, fun h3 => h2 (Or.inr h3)⟩

theorem download_of_ok (env : Env) (g : Globals) (fs : List String) (resp : Response)
    (params : List (String × String))
    (hget : env.httpGet g.LicenseServerUrl g.IgnoreSSL = some resp)
    (hparse : ParseMediaType env resp.headerGet = some params)
    (hc : env.createOk (env.join g.LicensingFilePath (sanitisedName params)) = true)
    (hw : env.copyOk (env.join g.LicensingFilePath (sanitisedName params)) = true) :
    DownloadLicenseToken env g fs =
      { effects := [Effect.httpGet g.LicenseServerUrl g.IgnoreSSL,
          Effect.create (env.join g.LicensingFilePath (sanitisedName params)) true,
          Effect.copy (env.join g.LicensingFilePath (sanitisedName params)) true,
          Effect.glob (env.join g.LicensingFilePath "*.tok")] ++
          (removeOldFiles env (env.join g.LicensingFilePath (sanitisedName params))
            ((createFile fs (env.join g.LicensingFilePath (sanitisedName params))).filter
              (env.globMatch (env.join g.LicensingFilePath "*.tok")))
            (createFile fs (env.join g.LicensingFilePath (sanitisedName params)))).1,
        fs := (removeOldFiles env (env.join g.LicensingFilePath (sanitisedName params))
            ((createFile fs (env.join g.LicensingFilePath (sanitisedName params))).filter
              (env.globMatch (env.join g.LicensingFilePath "*.tok")))
            (createFile fs (env.join g.LicensingFilePath (sanitisedName params)))).2,
        exited := false } := by
  simp [DownloadLicenseToken, hget, hparse, hc, hw]

theorem download_exited_iff (env : Env) (g : Globals) (fs : List String) :
    (DownloadLicenseToken env g fs).exited = downloadFails env g := by
  unfold DownloadLicenseToken downloadFails
  cases hget : env.httpGet g.LicenseServerUrl g.IgnoreSSL with
  | none => rfl
  | some resp =>
    simp only
    cases hparse : ParseMediaType env resp.headerGet with
    | none => rfl
    | some params =>
      simp only
      cases hc : env.createOk (env.join g.LicensingFilePath (sanitisedName params)) <;>
        cases hw : env.copyOk (env.join g.LicensingFilePath (sanitisedName params)) <;> simp

theorem download_of_fails (env : Env) (g : Globals) (fs : List String)
    (h : downloadFails env g = true) :
    (DownloadLicenseToken env g fs).exited = true ∧
      (∀ e ∈ (DownloadLicenseToken env g fs).effects,
        e = Effect.httpGet g.LicenseServerUrl g.IgnoreSSL ∨ e = Effect.fatal ∨
          (∃ p, e = Effect.create p false) ∨ (∃ p, e = Effect.create p true) ∨
          (∃ p, e = Effect.copy p false)) := by
  refine ⟨by rw [download_exited_iff]; exact h, ?_⟩
  unfold downloadFails at h
  unfold DownloadLicenseToken
  cases hget : env.httpGet g.LicenseServerUrl g.IgnoreSSL with
  | none => simp
  | some resp =>
    rw [hget] at h
    simp only at h ⊢
    cases hparse : ParseMediaType env resp.headerGet with
    | none => simp
    | some params =>
      rw [hparse] at h
      simp only at h ⊢
      cases hc : env.createOk (env.join g.LicensingFilePath (sanitisedName params)) <;>
        cases hw : env.copyOk (env.join g.LicensingFilePath (sanitisedName params)) <;>
        simp_all

theorem mem_createFile (fs : List String) (path p : String) :
    p ∈ createFile fs path ↔ p ∈ fs ∨ p = path := by
  unfold createFile
  split_ifs with h
  · constructor
    · exact Or.inl
    · rintro (h1 | rfl)
      · exact h1
      · exact h
  · simp

/-- C5 as stated fails, in two ways. When the server names a file that does
not match `*.tok`, a successful download removes the old token and leaves no
file matching `*.tok`. When the removal of the old token fails, the failure is
ignored and two files matching `*.tok` remain. -/
theorem download_need_not_leave_one_token :
    ((DownloadLicenseToken
        (sampleEnv "" (some ⟨some "attachment; filename=\"new.txt\""⟩))
        sampleGlobals ["C:\\tok\\old.tok"]).exited = false ∧
      (DownloadLicenseToken
        (sampleEnv "" (some ⟨some "attachment; filename=\"new.txt\""⟩))
        sampleGlobals ["C:\\tok\\old.tok"]).fs =
        ["C:\\tok\\new.txt"] ∧
      ((DownloadLicenseToken
        (sampleEnv "" (some ⟨some "attachment; filename=\"new.txt\""⟩))
        sampleGlobals ["C:\\tok\\old.tok"]).fs.filter
        (fun p => sampleMatch "C:\\tok\\*.tok".data p.data)) = []) ∧
    ((DownloadLicenseToken
        { sampleEnv "" (some ⟨some "attachment; filename=\"new.tok\""⟩) with
          removeOk := fun _ => false }
        sampleGlobals ["C:\\tok\\old.tok"]).exited = false ∧
      ((DownloadLicenseToken
        { sampleEnv "" (some ⟨some "attachment; filename=\"new.tok\""⟩) with
          removeOk := fun _ => false }
        sampleGlobals ["C:\\tok\\old.tok"]).fs.filter
        (fun p => sampleMatch "C:\\tok\\*.tok".data p.data)) =
        ["C:\\tok\\old.tok", "C:\\tok\\new.tok"]) := by
  refine ⟨⟨by decide, by decide, by decide⟩, by decide, by decide⟩

/-- C5, amended: after `DownloadLicenseToken` completes successfully the newly
written file, `LicensingFilePath` joined with the sanitised file name, exists;
every other file that matches `*.tok` in the directory has been removed unless
its removal failed; no file other than the new one has been added. If moreover
the new file itself matches `*.tok` and no removal fails, the files matching
`*.tok` are exactly the new one. -/
theorem download_leaves_new_token (env : Env) (g : Globals) (fs : List String) (resp : Response)
    (params : List (String × String))
    (hget : env.httpGet g.LicenseServerUrl g.IgnoreSSL = some resp)
    (hparse : ParseMediaType env resp.headerGet = some params)
    (hdone : (DownloadLicenseToken env g fs).exited = false) :
    env.join g.LicensingFilePath (sanitisedName params) ∈ (DownloadLicenseToken env g fs).fs ∧
    (∀ p ∈ (DownloadLicenseToken env g fs).fs,
      env.globMatch (env.join g.LicensingFilePath "*.tok") p = true →
        p = env.join g.LicensingFilePath (sanitisedName params) ∨ env.removeOk p = false) ∧
    (∀ p ∈ (DownloadLicenseToken env g fs).fs,
      p ∈ fs ∨ p = env.join g.LicensingFilePath (sanitisedName params)) ∧
    (env.globMatch (env.join g.LicensingFilePath "*.tok")
        (env.join g.LicensingFilePath (sanitisedName params)) = true →
      (∀ p, env.removeOk p = true) →
      ∀ p, (p ∈ (DownloadLicenseToken env g fs).fs ∧
          env.globMatch (env.join g.LicensingFilePath "*.tok") p = true) ↔
        p = env.join g.LicensingFilePath (sanitisedName params)) := by
  have hf : downloadFails env g = false := by rw [← download_exited_iff env g fs]; exact hdone
  simp only [downloadFails, hget, hparse, Bool.or_eq_false_iff, Bool.not_eq_false'] at hf
  rw [download_of_ok env g fs resp params hget hparse hf.1 hf.2]
  dsimp only
  generalize env.join g.LicensingFilePath (sanitisedName params) = fp
  generalize env.join g.LicensingFilePath "*.tok" = pat
  have hfp : fp ∈ (removeOldFiles env fp ((createFile fs fp).filter (env.globMatch pat))
      (createFile fs fp)).2 :=
    (removeOldFiles_fs env fp _ _ fp).2 ⟨(mem_createFile fs fp fp).2 (Or.inr rfl), fun _ => Or.inl rfl⟩
  have hold : ∀ p ∈ (removeOldFiles env fp ((createFile fs fp).filter (env.globMatch pat))
      (createFile fs fp)).2, env.globMatch pat p = true → p = fp ∨ env.removeOk p = false := by
    intro p hp hm
    have h := (removeOldFiles_fs env fp _ _ p).1 hp
    exact h.2 (List.mem_filter.2 ⟨h.1, hm⟩)
  refine ⟨hfp, hold, ?_, ?_⟩
  · intro p hp
    exact (mem_createFile fs fp p).1 ((removeOldFiles_fs env fp _ _ p).1 hp).1
  · intro hnew hrem p
    constructor
    · rintro ⟨hp, hm⟩
      rcases hold p hp hm with h | h
      · exact h
      · rw [hrem p] at h
        exact absurd h (by simp)
    · rintro rfl
      exact ⟨hfp, hnew⟩

/-- C5, amended, at a directory that holds an old token and another file. -/
theorem download_leaves_new_token_witness :
    (sampleEnv "" (some ⟨some "attachment; filename=\"new.tok\""⟩)).httpGet
        sampleGlobals.LicenseServerUrl
        sampleGlobals.IgnoreSSL =
        some ⟨some "attachment; filename=\"new.tok\""⟩ ∧
    (DownloadLicenseToken (sampleEnv "" (some ⟨some "attachment; filename=\"new.tok\""⟩))
        sampleGlobals
        ["C:\\tok\\old.tok", "C:\\tok\\readme.txt"]).fs = ["C:\\tok\\readme.txt", "C:\\tok\\new.tok"] ∧
    ∀ p, (p ∈ (DownloadLicenseToken (sampleEnv "" (some ⟨some "attachment; filename=\"new.tok\""⟩))
        sampleGlobals
        ["C:\\tok\\old.tok", "C:\\tok\\readme.txt"]).fs ∧
        (sampleEnv "" (some ⟨some "attachment; filename=\"new.tok\""⟩)).globMatch
          ((sampleEnv "" (some ⟨some "attachment; filename=\"new.tok\""⟩)).join "C:\\tok" "*.tok") p
          = true) ↔
      p = (sampleEnv "" (some ⟨some "attachment; filename=\"new.tok\""⟩)).join "C:\\tok"
        (sanitisedName [("filename", "new.tok")]) :=
  ⟨rfl, by decide,
    (download_leaves_new_token (sampleEnv "" (some ⟨some "attachment; filename=\"new.tok\""⟩))
      sampleGlobals
      ["C:\\tok\\old.tok", "C:\\tok\\readme.txt"] ⟨some "attachment; filename=\"new.tok\""⟩
      [("filename", "new.tok")] rfl (by decide) (by decide)).2.2.2 (by decide) (fun _ => rfl)⟩

/-- C6: in every run of `DownloadLicenseToken` a removal is preceded by the
request, the successful creation of the new file and the successful copy of the
body into it, in this order, and the file removed is not the new one; and when
the request, the parsing of the header, the creation or the copy fails, the run
ends in `log.Fatal` and removes no file. -/
theorem remove_only_after_write (env : Env) (g : Globals) (fs : List String) :
    (∀ pre post p ok, (DownloadLicenseToken env g fs).effects = pre ++ Effect.remove p ok :: post →
      ∃ filePath mid, p ≠ filePath ∧
        pre = Effect.httpGet g.LicenseServerUrl g.IgnoreSSL :: Effect.create filePath true ::
          Effect.copy filePath true :: mid) ∧
    (downloadFails env g = true →
      (DownloadLicenseToken env g fs).exited = true ∧
        ∀ p ok, Effect.remove p ok ∉ (DownloadLicenseToken env g fs).effects) := by
  have hfail : downloadFails env g = true →
      (DownloadLicenseToken env g fs).exited = true ∧
        ∀ p ok, Effect.remove p ok ∉ (DownloadLicenseToken env g fs).effects := by
    intro h
    obtain ⟨h1, h2⟩ := download_of_fails env g fs h
    refine ⟨h1, ?_⟩
    intro p ok hm
    rcases h2 _ hm with h | h | ⟨q, h⟩ | ⟨q, h⟩ | ⟨q, h⟩ <;> cases h
  refine ⟨?_, hfail⟩
  intro pre post p ok heq
  cases hf : downloadFails env g with
  | true =>
    exfalso
    refine (hfail hf).2 p ok ?_
    rw [heq]
    simp
  | false =>
    have hf2 := hf
    unfold downloadFails at hf2
    cases hget : env.httpGet g.LicenseServerUrl g.IgnoreSSL with
    | none => simp [hget] at hf2
    | some resp =>
      rw [hget] at hf2
      simp only at hf2
      cases hparse : ParseMediaType env resp.headerGet with
      | none => simp [hparse] at hf2
      | some params =>
        rw [hparse] at hf2
        simp only [Bool.or_eq_false_iff, Bool.not_eq_false'] at hf2
        rw [download_of_ok env g fs resp params hget hparse hf2.1 hf2.2] at heq
        dsimp only at heq
        generalize env.join g.LicensingFilePath (sanitisedName params) = fp at heq
        generalize env.join g.LicensingFilePath "*.tok" = pat at heq
        have hmem : Effect.remove p ok ∈
            (removeOldFiles env fp ((createFile fs fp).filter (env.globMatch pat))
              (createFile fs fp)).1 := by
          have : Effect.remove p ok ∈ pre ++ Effect.remove p ok :: post := by simp
          rw [← heq] at this
          simpa using this
        obtain ⟨q, hq, -, hne⟩ := removeOldFiles_effects env fp _ _ _ hmem
        have hpq : p = q := by
          injection hq
        subst hpq
        match pre, heq with
        | [], heq => simp at heq
        | [_], heq => simp at heq
        | [_, _], heq => simp at heq
        | [_, _, _], heq => simp at heq
        | a :: b :: c :: d :: mid, heq =>
          simp only [List.cons_append, List.cons.injEq] at heq
          obtain ⟨rfl, rfl, rfl, -⟩ := heq
          exact ⟨fp, d :: mid, hne, rfl⟩

/-- C6, at a run that removes an old token. -/
theorem remove_only_after_write_witness :
    (DownloadLicenseToken (sampleEnv "" (some ⟨some "attachment; filename=\"new.tok\""⟩))
        sampleGlobals ["C:\\tok\\old.tok"]).effects =
      [Effect.httpGet "https://ls.example/token" false, Effect.create "C:\\tok\\new.tok" true,
        Effect.copy "C:\\tok\\new.tok" true, Effect.glob "C:\\tok\\*.tok"] ++
        Effect.remove "C:\\tok\\old.tok" true :: [] ∧
    (∃ filePath mid, "C:\\tok\\old.tok" ≠ filePath ∧
      [Effect.httpGet "https://ls.example/token" false, Effect.create "C:\\tok\\new.tok" true,
        Effect.copy "C:\\tok\\new.tok" true, Effect.glob "C:\\tok\\*.tok"] =
        Effect.httpGet sampleGlobals.LicenseServerUrl
          sampleGlobals.IgnoreSSL ::
          Effect.create filePath true :: Effect.copy filePath true :: mid) ∧
    (downloadFails { sampleEnv "" (some ⟨some "attachment; filename=\"new.tok\""⟩) with
        copyOk := fun _ => false } sampleGlobals = true ∧
      ∀ p ok, Effect.remove p ok ∉
        (DownloadLicenseToken { sampleEnv "" (some ⟨some "attachment; filename=\"new.tok\""⟩) with
          copyOk := fun _ => false } sampleGlobals
          ["C:\\tok\\old.tok"]).effects) :=
  ⟨by decide,
   (remove_only_after_write (sampleEnv "" (some ⟨some "attachment; filename=\"new.tok\""⟩))
      sampleGlobals ["C:\\tok\\old.tok"]).1
      [Effect.httpGet "https://ls.example/token" false, Effect.create "C:\\tok\\new.tok" true,
        Effect.copy "C:\\tok\\new.tok" true, Effect.glob "C:\\tok\\*.tok"] []
      "C:\\tok\\old.tok" true (by decide),
   by decide,
   ((remove_only_after_write { sampleEnv "" (some ⟨some "attachment; filename=\"new.tok\""⟩) with
      copyOk := fun _ => false } sampleGlobals
      ["C:\\tok\\old.tok"]).2 (by decide)).2⟩

namespace strings

theorem replaceAux_colon (cs : List Char) :
    replaceAux [':'] ['_'] 0 cs = cs.map (fun c => if c = ':' then '_' else c) := by
  induction cs with
  | nil => rfl
  | cons c cs ih =>
    by_cases h : c = ':'
    · subst h
      simp [replaceAux, List.isPrefixOf, ih]
    · have h2 : ¬ ':' = c := fun e => h e.symm
      simp [replaceAux, List.isPrefixOf, ih, h, h2]

theorem ReplaceAll_colon (s : String) :
    (ReplaceAll s ":" "_").data = s.data.map (fun c => if c = ':' then '_' else c) := by
  have h : ":".data = [':'] := rfl
  have h2 : "_".data = ['_'] := rfl
  simp only [ReplaceAll, h, h2, List.isEmpty_cons, Bool.false_eq_true, ↓reduceIte]
  exact replaceAux_colon s.data

end strings

/-- C7: the name under which `DownloadLicenseToken` creates the file is the
file name of the header with its colons replaced: it contains no colon, has the
length of the original, has an underscore wherever the original has a colon and
the original character everywhere else; the path created is `LicensingFilePath`
joined with this name. -/
theorem sanitised_name_replaces_colons :
    (∀ filename : String,
      ':' ∉ (strings.ReplaceAll filename ":" "_").data ∧
      (strings.ReplaceAll filename ":" "_").length = filename.length ∧
      ∀ i : Nat, (strings.ReplaceAll filename ":" "_").data[i]? =
        (filename.data[i]?).map (fun c => if c = ':' then '_' else c)) ∧
    strings.ReplaceAll "client_configuration_token_2024-01-01T10:00:00.tok" ":" "_" =
      "client_configuration_token_2024-01-01T10_00_00.tok" ∧
    (∀ (env : Env) (g : Globals) (fs : List String) (resp : Response)
      (params : List (String × String)),
      env.httpGet g.LicenseServerUrl g.IgnoreSSL = some resp →
      ParseMediaType env resp.headerGet = some params →
      ∀ p ok, Effect.create p ok ∈ (DownloadLicenseToken env g fs).effects →
        p = env.join g.LicensingFilePath
          (strings.ReplaceAll ((params.lookup "filename").getD "") ":" "_")) := by
  refine ⟨?_, by decide, ?_⟩
  · intro filename
    refine ⟨?_, ?_, ?_⟩
    · rw [strings.ReplaceAll_colon]
      intro h
      obtain ⟨c, -, hc⟩ := List.mem_map.1 h
      by_cases h1 : c = ':' <;> simp_all
    · show (strings.ReplaceAll filename ":" "_").data.length = filename.data.length
      rw [strings.ReplaceAll_colon, List.length_map]
    · intro i
      rw [strings.ReplaceAll_colon, List.getElem?_map]
  · intro env g fs resp params hget hparse p ok hm
    unfold DownloadLicenseToken at hm
    simp only [hget, hparse] at hm
    by_cases hc : env.createOk (env.join g.LicensingFilePath (sanitisedName params)) = true
    · by_cases hw : env.copyOk (env.join g.LicensingFilePath (sanitisedName params)) = true
      · simp only [hc, hw, Bool.not_true, Bool.false_eq_true, ↓reduceIte, List.cons_append,
          List.nil_append, List.mem_cons, reduceCtorEq, Effect.create.injEq, false_or] at hm
        rcases hm with ⟨h, -⟩ | hm
        · exact h
        · obtain ⟨q, hq, -, -⟩ := removeOldFiles_effects env _ _ _ _ hm
          cases hq
      · simp only [hc, hw, Bool.not_true, Bool.false_eq_true, ↓reduceIte, Bool.not_eq_true,
          List.mem_cons, reduceCtorEq, Effect.create.injEq, false_or, List.mem_singleton,
          or_false, List.not_mem_nil] at hm
        simp_all [sanitisedName]
    · simp only [hc, Bool.not_eq_true, List.mem_cons, reduceCtorEq, Effect.create.injEq,
        false_or, List.mem_singleton, or_false, List.not_mem_nil] at hm
      simp_all [sanitisedName]

/-- C7, at a run of the download whose header names a file with colons. -/
theorem sanitised_name_replaces_colons_witness :
    Effect.create "C:\\tok\\client_configuration_token_2024-01-01T10_00_00.tok" true ∈
      (DownloadLicenseToken
        (sampleEnv "" (some ⟨some
          "attachment; filename=\"client_configuration_token_2024-01-01T10:00:00.tok\""⟩))
        sampleGlobals []).effects ∧
    "C:\\tok\\client_configuration_token_2024-01-01T10_00_00.tok" =
      sampleJoin "C:\\tok"
        (strings.ReplaceAll "client_configuration_token_2024-01-01T10:00:00.tok" ":" "_") :=
  ⟨by decide,
   sanitised_name_replaces_colons.2.2
     (sampleEnv "" (some ⟨some
       "attachment; filename=\"client_configuration_token_2024-01-01T10:00:00.tok\""⟩))
     sampleGlobals []
     ⟨some "attachment; filename=\"client_configuration_token_2024-01-01T10:00:00.tok\""⟩
     [("filename", "client_configuration_token_2024-01-01T10:00:00.tok")] rfl (by decide)
     "C:\\tok\\client_configuration_token_2024-01-01T10_00_00.tok" true (by decide)⟩

theorem timerBranch_eq_Execute (env : Env) (g : Globals) (fs : List String) :
    timerBranch env g fs = Execute env g fs := rfl

/-- C8: in a cycle whose status is unlicensed and whose GET succeeds, a response
without `Content-Disposition` header, or with one that cannot be parsed, ends
the cycle in `log.Fatal`: the cycle does the diagnostic read and the request and
nothing else, so no file is created or removed, the files are as before, and
`RestartService` is not invoked. The timer branch of the service does the
same. -/
theorem cycle_fatal_without_header (env : Env) (g : Globals) (fs : List String) (resp : Response)
    (hun : IsLicensed (RunNvidiaSmi env g) = false)
    (hget : env.httpGet g.LicenseServerUrl g.IgnoreSSL = some resp)
    (hhdr : resp.contentDisposition = none ∨ ParseMediaType env resp.headerGet = none) :
    (Execute env g fs).exited = true ∧
    (Execute env g fs).fs = fs ∧
    (Execute env g fs).effects =
      [Effect.log "Running NVIDIA SMI", Effect.exec (smiCommand g), Effect.log "Checking license",
        Effect.log "Downloading License Token",
        Effect.httpGet g.LicenseServerUrl g.IgnoreSSL, Effect.fatal] ∧
    (∀ p ok, Effect.create p ok ∉ (Execute env g fs).effects) ∧
    (∀ p ok, Effect.remove p ok ∉ (Execute env g fs).effects) ∧
    (∀ e ∈ RestartService NVDisplayService, e ∉ (Execute env g fs).effects) ∧
    timerBranch env g fs = Execute env g fs := by
  have hparse : ParseMediaType env resp.headerGet = none := by
    rcases hhdr with h | h
    · simp [ParseMediaType, Response.headerGet, h]
    · exact h
  have hd : DownloadLicenseToken env g fs =
      { effects := [Effect.httpGet g.LicenseServerUrl g.IgnoreSSL, Effect.fatal], fs := fs,
        exited := true } := by
    simp [DownloadLicenseToken, hget, hparse]
  have he : Execute env g fs =
      { effects := [Effect.log "Running NVIDIA SMI", Effect.exec (smiCommand g),
          Effect.log "Checking license", Effect.log "Downloading License Token",
          Effect.httpGet g.LicenseServerUrl g.IgnoreSSL, Effect.fatal],
        fs := fs, exited := true } := by
    simp [Execute, hun, hd]
  rw [he]
  refine ⟨rfl, rfl, rfl, ?_, ?_, ?_, ?_⟩
  · intro p ok h
    simp at h
  · intro p ok h
    simp at h
  · intro e h1 h2
    simp only [RestartService, List.mem_cons, List.mem_singleton, List.not_mem_nil, or_false] at h1
    rcases h1 with rfl | rfl
    · simp only [smiCommand, List.mem_cons, reduceCtorEq, Effect.exec.injEq, List.cons.injEq,
        false_or, or_false, List.not_mem_nil] at h2
      exact absurd h2.2.1 (by decide)
    · simp only [smiCommand, List.mem_cons, reduceCtorEq, Effect.exec.injEq, List.cons.injEq,
        false_or, or_false, List.not_mem_nil] at h2
      exact absurd h2.2.1 (by decide)
  · rw [timerBranch_eq_Execute, he]

/-- C8, at a response without the header and at a response whose header cannot
be parsed. -/
theorem cycle_fatal_without_header_witness :
    (IsLicensed (RunNvidiaSmi (sampleEnv "" (some ⟨none⟩)) sampleGlobals) = false ∧
      (Execute (sampleEnv "" (some ⟨none⟩)) sampleGlobals ["C:\\tok\\old.tok"]).exited = true ∧
      (Execute (sampleEnv "" (some ⟨none⟩)) sampleGlobals ["C:\\tok\\old.tok"]).fs =
        ["C:\\tok\\old.tok"]) ∧
    (ParseMediaType (sampleEnv "" (some ⟨some "attachment; filename"⟩))
        (Response.headerGet ⟨some "attachment; filename"⟩) = none ∧
      (Execute (sampleEnv "" (some ⟨some "attachment; filename"⟩)) sampleGlobals ["C:\\tok\\old.tok"]).exited = true) :=
  ⟨⟨by decide,
    (cycle_fatal_without_header (sampleEnv "" (some ⟨none⟩)) sampleGlobals ["C:\\tok\\old.tok"]
      ⟨none⟩ (by decide) rfl (Or.inl rfl)).1,
    (cycle_fatal_without_header (sampleEnv "" (some ⟨none⟩)) sampleGlobals ["C:\\tok\\old.tok"]
      ⟨none⟩ (by decide) rfl (Or.inl rfl)).2.1⟩,
   ⟨by decide,
    (cycle_fatal_without_header (sampleEnv "" (some ⟨some "attachment; filename"⟩)) sampleGlobals
      ["C:\\tok\\old.tok"] ⟨some "attachment; filename"⟩ (by decide) rfl (Or.inr (by decide))).1⟩⟩

theorem download_httpGet (env : Env) (g : Globals) (fs : List String) (u : String) (k : Bool)
    (h : Effect.httpGet u k ∈ (DownloadLicenseToken env g fs).effects) :
    u = g.LicenseServerUrl ∧ k = g.IgnoreSSL := by
  unfold DownloadLicenseToken at h
  cases hget : env.httpGet g.LicenseServerUrl g.IgnoreSSL with
  | none =>
    simp only [hget, List.mem_cons, Effect.httpGet.injEq, reduceCtorEq, List.not_mem_nil,
      or_false] at h
    exact h
  | some resp =>
    simp only [hget] at h
    cases hparse : ParseMediaType env resp.headerGet with
    | none =>
      simp only [hparse, List.mem_cons, Effect.httpGet.injEq, reduceCtorEq, List.not_mem_nil,
        or_false] at h
      exact h
    | some params =>
      simp only [hparse] at h
      by_cases hc : env.createOk (env.join g.LicensingFilePath (sanitisedName params)) = true
      · by_cases hw : env.copyOk (env.join g.LicensingFilePath (sanitisedName params)) = true
        · simp only [hc, hw, Bool.not_true, Bool.false_eq_true, ↓reduceIte, List.cons_append,
            List.nil_append, List.mem_cons, reduceCtorEq, Effect.httpGet.injEq, false_or] at h
          rcases h with h | h
          · exact h
          · obtain ⟨q, hq, -, -⟩ := removeOldFiles_effects env _ _ _ _ h
            cases hq
        · simp only [hc, hw, Bool.not_true, Bool.false_eq_true, ↓reduceIte, Bool.not_eq_true,
            List.mem_cons, reduceCtorEq, Effect.httpGet.injEq, false_or, List.mem_singleton,
            or_false, List.not_mem_nil] at h
          simp_all
      · simp only [hc, Bool.not_eq_true, List.mem_cons, reduceCtorEq, Effect.httpGet.injEq,
          false_or, List.mem_singleton, or_false, List.not_mem_nil] at h
        simp_all

theorem download_fails_last (env : Env) (g : Globals) (fs : List String)
    (h : downloadFails env g = true) :
    ∃ init, (DownloadLicenseToken env g fs).effects = init ++ [Effect.fatal] ∧
      ∀ e ∈ init, e ∉ RestartService NVDisplayService := by
  unfold downloadFails at h
  unfold DownloadLicenseToken
  cases hget : env.httpGet g.LicenseServerUrl g.IgnoreSSL with
  | none => exact ⟨[_], rfl, by simp [RestartService]⟩
  | some resp =>
    rw [hget] at h
    simp only at h ⊢
    cases hparse : ParseMediaType env resp.headerGet with
    | none => exact ⟨[_], rfl, by simp [RestartService]⟩
    | some params =>
      rw [hparse] at h
      simp only at h ⊢
      cases hc : env.createOk (env.join g.LicensingFilePath (sanitisedName params)) with
      | false =>
        exact ⟨[Effect.httpGet g.LicenseServerUrl g.IgnoreSSL,
          Effect.create (env.join g.LicensingFilePath (sanitisedName params)) false],
          by simp, by simp [RestartService]⟩
      | true =>
        cases hw : env.copyOk (env.join g.LicensingFilePath (sanitisedName params)) with
        | false =>
          exact ⟨[Effect.httpGet g.LicenseServerUrl g.IgnoreSSL,
            Effect.create (env.join g.LicensingFilePath (sanitisedName params)) true,
            Effect.copy (env.join g.LicensingFilePath (sanitisedName params)) false],
            by simp, by simp [RestartService]⟩
        | true => simp [hc, hw] at h

theorem foldl_loopStep_of_exited (g : Globals) (events : List Event) (s : Svc)
    (h : s.phase = Phase.exited) : events.foldl (loopStep g) s = s := by
  induction events with
  | nil => rfl
  | cons e es ih =>
    have : loopStep g s e = s := by
      unfold loopStep
      rw [h]
    rw [List.foldl_cons, this, ih]

theorem timerBranch_of_fails (env : Env) (g : Globals) (fs : List String)
    (hun : IsLicensed (RunNvidiaSmi env g) = false) (hfail : downloadFails env g = true) :
    (timerBranch env g fs).exited = true ∧
      ∃ init, (timerBranch env g fs).effects = init ++ [Effect.fatal] ∧
        ∀ e ∈ RestartService NVDisplayService, e ∉ init := by
  have hex : (DownloadLicenseToken env g fs).exited = true := by
    rw [download_exited_iff]
    exact hfail
  obtain ⟨init, hinit, hno⟩ := download_fails_last env g fs hfail
  have hb : timerBranch env g fs =
      { effects := [Effect.log "Running NVIDIA SMI", Effect.exec (smiCommand g),
          Effect.log "Checking license"] ++ [Effect.log "Downloading License Token"] ++
          (DownloadLicenseToken env g fs).effects,
        fs := (DownloadLicenseToken env g fs).fs, exited := true } := by
    simp [timerBranch, hun, hex]
  rw [hb]
  refine ⟨rfl, [Effect.log "Running NVIDIA SMI", Effect.exec (smiCommand g),
    Effect.log "Checking license", Effect.log "Downloading License Token"] ++ init, ?_, ?_⟩
  · simp [hinit]
  · intro e he hm
    simp only [List.cons_append, List.nil_append, List.mem_cons] at hm
    rcases hm with rfl | rfl | rfl | rfl | hm
    · simp [RestartService] at he
    · simp only [RestartService, smiCommand, List.mem_cons, Effect.exec.injEq, List.cons.injEq,
        List.mem_singleton, List.not_mem_nil, or_false] at he
      rcases he with h | h
      · exact absurd h.2.1 (by decide)
      · exact absurd h.2.1 (by decide)
    · simp [RestartService] at he
    · simp [RestartService] at he
    · exact hno e hm he

/-- C9 as stated fails: the service is started with a configuration record and
receives two ticks; in the first cycle the request is a transport error, and
the process ends in `log.Fatal`: the state is not running and the second tick
runs no cycle. -/
theorem service_exits_on_transport_error :
    (runAsService (some "{}") (fun _ _ => some sampleConfig) []
      [Event.tick (sampleEnv "" none), Event.tick (sampleEnv "" none)]).1 =
    { effects := [Effect.status SvcState.StartPending, Effect.status SvcState.Running,
        Effect.log "Running NVIDIA SMI",
        Effect.exec ["C:\\Windows\\System32\\nvidia-smi.exe", "-q", "-x"],
        Effect.log "Checking license", Effect.log "Downloading License Token",
        Effect.httpGet "" false, Effect.fatal],
      fs := [], phase := Phase.exited } := by
  decide

/-- C9, amended: in the service, a cycle whose status is unlicensed and whose
download fails (transport error, missing or unparseable header, failure to
create or to write the file) ends the process through `log.Fatal`: the loop is
left in the state `exited`, the last thing done is `log.Fatal`, `RestartService`
is not invoked in that cycle, and no later tick or request is served. -/
theorem service_exits_on_cycle_error (configFile : Option String)
    (jsonUnmarshal : String → ConfigT → Option ConfigT) (g : Globals) (fs : List String)
    (pre rest : List Event) (env : Env)
    (hrun : (MyService.Execute configFile jsonUnmarshal g fs pre).1.phase = Phase.running)
    (hun : IsLicensed (RunNvidiaSmi env g) = false)
    (hfail : downloadFails env g = true) :
    (MyService.Execute configFile jsonUnmarshal g fs (pre ++ Event.tick env :: rest)).1.phase =
      Phase.exited ∧
    (MyService.Execute configFile jsonUnmarshal g fs (pre ++ Event.tick env :: rest)).1 =
      (MyService.Execute configFile jsonUnmarshal g fs (pre ++ [Event.tick env])).1 ∧
    ∃ cycle, (MyService.Execute configFile jsonUnmarshal g fs (pre ++ Event.tick env :: rest)).1.effects =
        (MyService.Execute configFile jsonUnmarshal g fs pre).1.effects ++ cycle ++ [Effect.fatal] ∧
      ∀ e ∈ RestartService NVDisplayService, e ∉ cycle := by
  unfold MyService.Execute at hrun ⊢
  cases hc : configFile with
  | none => simp [hc] at hrun
  | some jsonData =>
    rw [hc] at hrun
    simp only at hrun ⊢
    cases hj : jsonUnmarshal jsonData g.Config with
    | none => simp [hj] at hrun
    | some cfg =>
      rw [hj] at hrun
      simp only at hrun ⊢
      simp only [List.foldl_append, List.foldl_cons, List.foldl_nil]
      generalize List.foldl (loopStep { g with Config := cfg })
        { effects := [Effect.status SvcState.StartPending, Effect.status SvcState.Running],
          fs := fs, phase := Phase.running } pre = s at hrun ⊢
      obtain ⟨hex, init, hinit, hno⟩ :=
        timerBranch_of_fails env { g with Config := cfg } s.fs hun hfail
      have hstep : loopStep { g with Config := cfg } s (Event.tick env) =
          { effects := s.effects ++ (timerBranch env { g with Config := cfg } s.fs).effects,
            fs := (timerBranch env { g with Config := cfg } s.fs).fs, phase := Phase.exited } := by
        simp [loopStep, hrun, hex]
      rw [foldl_loopStep_of_exited _ rest _ (by rw [hstep])]
      rw [hstep]
      refine ⟨rfl, rfl, init, ?_, hno⟩
      simp [hinit]

/-- C9, amended, at a service that has answered an interrogation and then
meets a failure to write the token; a further tick and a stop request follow. -/
theorem service_exits_on_cycle_error_witness :
    (MyService.Execute (some "{}") (fun _ _ => some sampleConfig) sampleGlobals []
        [Event.request Cmd.Interrogate]).1.phase = Phase.running ∧
    downloadFails { sampleEnv "" (some ⟨some "attachment; filename=\"new.tok\""⟩) with
        copyOk := fun _ => false } sampleGlobals = true ∧
    (MyService.Execute (some "{}") (fun _ _ => some sampleConfig) sampleGlobals []
        ([Event.request Cmd.Interrogate] ++
          Event.tick { sampleEnv "" (some ⟨some "attachment; filename=\"new.tok\""⟩) with
            copyOk := fun _ => false } ::
          [Event.tick (sampleEnv "" none), Event.request Cmd.Stop])).1.phase = Phase.exited :=
  ⟨by decide, by decide,
   (service_exits_on_cycle_error (some "{}") (fun _ _ => some sampleConfig) sampleGlobals []
      [Event.request Cmd.Interrogate] [Event.tick (sampleEnv "" none), Event.request Cmd.Stop]
      { sampleEnv "" (some ⟨some "attachment; filename=\"new.tok\""⟩) with
        copyOk := fun _ => false } (by decide) (by decide) (by decide)).1⟩

/-- C10, the code at a configuration record: the service stores the record of
`config.json` in the variable `Config`, but the cycle reads the variables
`LicenseServerUrl`, `IgnoreSSL` and `LicensingFilePath`, which keep their initial
values. Whatever the record says, the request of an unlicensed cycle goes to
the empty address with certificate checking on, and the cycle is the one of
`Execute` under the initial variables. -/
theorem service_download_ignores_config (jsonData : String)
    (jsonUnmarshal : String → ConfigT → Option ConfigT) (cfg : ConfigT) (fs : List String)
    (env : Env)
    (hcfg : jsonUnmarshal jsonData Globals.init.Config = some cfg)
    (hun : IsLicensed (RunNvidiaSmi env Globals.init) = false) :
    (runAsService (some jsonData) jsonUnmarshal fs [Event.tick env]).2.Config = cfg ∧
    (runAsService (some jsonData) jsonUnmarshal fs [Event.tick env]).1.effects =
      [Effect.status SvcState.StartPending, Effect.status SvcState.Running] ++
        (Execute env Globals.init fs).effects ∧
    Effect.httpGet "" false ∈ (runAsService (some jsonData) jsonUnmarshal fs [Event.tick env]).1.effects ∧
    ∀ url skip,
      Effect.httpGet url skip ∈ (runAsService (some jsonData) jsonUnmarshal fs [Event.tick env]).1.effects →
        url = "" ∧ skip = false := by
  have hrun : runAsService (some jsonData) jsonUnmarshal fs [Event.tick env] =
      ({ effects := [Effect.status SvcState.StartPending, Effect.status SvcState.Running] ++
          (Execute env Globals.init fs).effects,
         fs := (Execute env Globals.init fs).fs,
         phase := if (Execute env Globals.init fs).exited then Phase.exited else Phase.running },
       { Globals.init with Config := cfg }) := by
    simp only [runAsService, MyService.Execute, hcfg, List.foldl_cons, List.foldl_nil, loopStep]
    rfl
  rw [hrun]
  have hget : ∀ url skip, Effect.httpGet url skip ∈ (Execute env Globals.init fs).effects →
      url = "" ∧ skip = false := by
    intro url skip h
    unfold Execute at h
    simp only [hun, Bool.not_false, ↓reduceIte] at h
    have hd := download_httpGet env Globals.init fs url skip
    split_ifs at h <;>
      simp only [List.cons_append, List.nil_append, List.mem_cons, List.mem_append, reduceCtorEq,
        false_or, RestartService, List.not_mem_nil, or_false] at h <;>
      exact hd h
  have hmem : Effect.httpGet "" false ∈ (Execute env Globals.init fs).effects := by
    unfold Execute
    simp only [hun, Bool.not_false, ↓reduceIte]
    have h0 : Effect.httpGet "" false ∈ (DownloadLicenseToken env Globals.init fs).effects := by
      unfold DownloadLicenseToken
      cases env.httpGet Globals.init.LicenseServerUrl Globals.init.IgnoreSSL with
      | none => exact List.mem_cons_self _ _
      | some resp =>
        simp only
        cases ParseMediaType env resp.headerGet with
        | none => exact List.mem_cons_self _ _
        | some params =>
          simp only
          split_ifs <;> exact List.mem_cons_self _ _
    split_ifs <;> simp [h0]
  refine ⟨rfl, rfl, ?_, ?_⟩
  · exact List.mem_append_right _ hmem
  · intro url skip h
    simp only [List.cons_append, List.nil_append, List.mem_cons, reduceCtorEq, false_or] at h
    exact hget url skip h

/-- C10, at the record of `sampleConfig` and a server that answers at the
address of the record: the request goes to the empty address, fails, and the
process ends; the address of the record is never contacted and `RestartService`
is not invoked. -/
theorem service_download_ignores_config_witness :
    (runAsService (some "{}") (fun _ _ => some sampleConfig) ["D:\\tok\\old.tok"]
      [Event.tick (sampleEnv "" (some ⟨some "attachment; filename=\"new.tok\""⟩))]).2.Config = sampleConfig ∧
    (runAsService (some "{}") (fun _ _ => some sampleConfig) ["D:\\tok\\old.tok"]
      [Event.tick (sampleEnv "" (some ⟨some "attachment; filename=\"new.tok\""⟩))]).1 =
      { effects := [Effect.status SvcState.StartPending, Effect.status SvcState.Running,
          Effect.log "Running NVIDIA SMI",
          Effect.exec ["C:\\Windows\\System32\\nvidia-smi.exe", "-q", "-x"],
          Effect.log "Checking license", Effect.log "Downloading License Token",
          Effect.httpGet "" false, Effect.fatal],
        fs := ["D:\\tok\\old.tok"], phase := Phase.exited } :=
  ⟨(service_download_ignores_config "{}" (fun _ _ => some sampleConfig) sampleConfig
      ["D:\\tok\\old.tok"]
      (sampleEnv "" (some ⟨some "attachment; filename=\"new.tok\""⟩))
      rfl (by decide)).1,
   by decide⟩

theorem Execute_of_licensed (env : Env) (g : Globals) (fs : List String)
    (h : IsLicensed (RunNvidiaSmi env g) = true) :
    Execute env g fs = { effects := readOnly g, fs := fs, exited := false } := by
  simp [Execute, h, readOnly]

/-- C11: when `IsLicensed` returns true on the report, one cycle of `Execute`,
and likewise the timer branch of the service loop, runs nvidia-smi once, writes
its two log lines and does nothing else: no request to the licence server, no
file created, written, listed or removed, no `log.Fatal`, no `net stop` or
`net start`; the files are as before. Two cycles in a row on such reports do
this twice, that is exactly two diagnostic reads, and in the service the loop
stays running. -/
theorem licensed_cycle_only_reads (env env2 : Env) (g : Globals) (fs : List String)
    (h : IsLicensed (RunNvidiaSmi env g) = true)
    (h2 : IsLicensed (RunNvidiaSmi env2 g) = true) :
    Execute env g fs =
      { effects := [Effect.log "Running NVIDIA SMI", Effect.exec (smiCommand g),
          Effect.log "Checking license"], fs := fs, exited := false } ∧
    timerBranch env g fs = Execute env g fs ∧
    (∀ e ∈ (Execute env g fs).effects,
      (∀ url skip, e ≠ Effect.httpGet url skip) ∧ (∀ p ok, e ≠ Effect.create p ok) ∧
      (∀ p ok, e ≠ Effect.copy p ok) ∧ (∀ p ok, e ≠ Effect.remove p ok) ∧
      (∀ pat, e ≠ Effect.glob pat) ∧ e ≠ Effect.fatal ∧ e ∉ RestartService NVDisplayService) ∧
    (Execute env g fs).effects ++ (Execute env2 g (Execute env g fs).fs).effects =
      [Effect.log "Running NVIDIA SMI", Effect.exec (smiCommand g), Effect.log "Checking license",
        Effect.log "Running NVIDIA SMI", Effect.exec (smiCommand g),
        Effect.log "Checking license"] ∧
    (Execute env2 g (Execute env g fs).fs).fs = fs ∧
    (∀ s : Svc, s.phase = Phase.running →
      [Event.tick env, Event.tick env2].foldl (loopStep g) s =
        { effects := s.effects ++ [Effect.log "Running NVIDIA SMI", Effect.exec (smiCommand g),
            Effect.log "Checking license", Effect.log "Running NVIDIA SMI",
            Effect.exec (smiCommand g), Effect.log "Checking license"],
          fs := s.fs, phase := Phase.running }) := by
  have e1 := fun fs => Execute_of_licensed env g fs h
  have e2 := fun fs => Execute_of_licensed env2 g fs h2
  refine ⟨e1 fs, rfl, ?_, ?_, ?_, ?_⟩
  · intro e he
    rw [e1 fs] at he
    simp only [readOnly, List.mem_cons, List.mem_singleton, List.not_mem_nil, or_false] at he
    rcases he with rfl | rfl | rfl
    · simp [RestartService]
    · refine ⟨by simp, by simp, by simp, by simp, by simp, by simp, ?_⟩
      intro hm
      simp only [RestartService, smiCommand, List.mem_cons, Effect.exec.injEq, List.cons.injEq,
        List.mem_singleton, List.not_mem_nil, or_false] at hm
      rcases hm with hm | hm
      · exact absurd hm.2.1 (by decide)
      · exact absurd hm.2.1 (by decide)
    · simp [RestartService]
  · rw [e1 fs, e2 fs]
    rfl
  · rw [e1 fs, e2 fs]
  · intro s hs
    have t1 : ∀ fs, timerBranch env g fs = { effects := readOnly g, fs := fs, exited := false } :=
      fun fs => (timerBranch_eq_Execute env g fs).trans (e1 fs)
    have t2 : ∀ fs, timerBranch env2 g fs = { effects := readOnly g, fs := fs, exited := false } :=
      fun fs => (timerBranch_eq_Execute env2 g fs).trans (e2 fs)
    simp [loopStep, hs, t1, t2, readOnly]

/-- C11, at a report whose licence status carries an expiry in the past: the
cycle run twice leaves the token directory as it was and reads twice. -/
theorem licensed_cycle_only_reads_witness :
    IsLicensed (RunNvidiaSmi (sampleEnv licensedReport none) sampleGlobals) = true ∧
    Execute (sampleEnv licensedReport none) sampleGlobals ["C:\\tok\\old.tok"] =
      { effects := [Effect.log "Running NVIDIA SMI",
          Effect.exec ["C:\\Windows\\System32\\nvidia-smi.exe", "-q", "-x"],
          Effect.log "Checking license"], fs := ["C:\\tok\\old.tok"], exited := false } ∧
    (Execute (sampleEnv licensedReport none) sampleGlobals
      (Execute (sampleEnv licensedReport none) sampleGlobals ["C:\\tok\\old.tok"]).fs).fs =
      ["C:\\tok\\old.tok"] :=
  ⟨by decide,
   (licensed_cycle_only_reads (sampleEnv licensedReport none) (sampleEnv licensedReport none)
      sampleGlobals ["C:\\tok\\old.tok"] (by decide) (by decide)).1,
   (licensed_cycle_only_reads (sampleEnv licensedReport none) (sampleEnv licensedReport none)
      sampleGlobals ["C:\\tok\\old.tok"] (by decide) (by decide)).2.2.2.2.1⟩

end NVLicenseMonitor
